import Mathlib

/-! # JMbayes2 `mcmc_cpp` (src/mcmc_fit.cpp): a shallow embedding

The driver `mcmc_cpp` is embedded statement by statement.  Reals are an
ordered field `α` (exact arithmetic); dense matrices carry their run-time
dimensions; operations that Armadillo checks at run time return `Option`.

Functions that `mcmc_fit.cpp` calls but that live in the package headers
(`JMbayes2_D.h`, `JMbayes2_Surv.h`, `JMbayes2_Long.h`) are fields of `Env`.
The contents of memory that is allocated without a fill are an explicit
argument (`Uninit`).
-/

namespace JMbayes2

/-! ## Dense vectors and matrices (Armadillo `vec`, `uvec`, `mat`) -/

/-- Armadillo `vec`: a column of reals, `n_rows` is the length of the list. -/
abbrev Vec (α : Type) := List α

/-- Armadillo `uvec`: a column of `uword` values. -/
abbrev UVec := List Nat

/-- Armadillo `mat`: run-time dimensions and the entries.  Only the entries
with `i < n_rows` and `j < n_cols` are part of the matrix. -/
structure Mat (α : Type) where
  n_rows : Nat
  n_cols : Nat
  elem : Nat → Nat → α

/-- Number of bits of Armadillo's `uword` (RcppArmadillo builds with
`ARMA_64BIT_WORD`). -/
def uword_bits : Nat := 64

/-- Conversion of a C++ `int` to `uword` (modular). -/
def to_uword (x : Int) : Nat := (x % (2 ^ uword_bits : Nat)).toNat

/-- The elementwise `uvec - 1` of unsigned words (wraps around at zero). -/
def uvec_minus_one (v : UVec) : UVec :=
  v.map (fun x => (x + 2 ^ uword_bits - 1) % 2 ^ uword_bits)

/-- The elementwise `uvec + 1` of unsigned words. -/
def uvec_plus_one (v : UVec) : UVec :=
  v.map (fun x => (x + 1) % 2 ^ uword_bits)

/-- Armadillo `join_cols` of two column vectors: the first on top of the second. -/
def join_cols (a b : UVec) : UVec := a ++ b

section LinAlg

variable {α : Type}

/-- Entry `i` of a vector (`0` outside; never used outside). -/
def Vec.at [Zero α] (v : Vec α) (i : Nat) : α := v.getD i 0

/-- A matrix given by the list of its rows (used to write concrete matrices). -/
def Mat.ofRows [Zero α] (n_cols : Nat) (rows : List (List α)) : Mat α :=
  ⟨rows.length, n_cols, fun i j => (rows.getD i []).getD j 0⟩

/-- The constructor `mat(n_rows, n_cols, fill::zeros)`. -/
def Mat.zeros [Zero α] (n_rows n_cols : Nat) : Mat α := ⟨n_rows, n_cols, fun _ _ => 0⟩

/-- The constructor `mat(n_rows, n_cols)` without a fill: the entries are
whatever the allocated memory `g` holds. -/
def Mat.uninit (g : Nat → Nat → α) (n_rows n_cols : Nat) : Mat α := ⟨n_rows, n_cols, g⟩

/-- The constructor `vec(n)` without a fill: the entries are whatever the
allocated memory `g` holds. -/
def Vec.uninit (g : Nat → α) (n : Nat) : Vec α := (List.range n).map g

/-- A column vector seen as an `n × 1` matrix. -/
def Vec.toMat [Zero α] (v : Vec α) : Mat α := ⟨v.length, 1, fun i _ => Vec.at v i⟩

/-- Armadillo `A * B`: needs `A.n_cols = B.n_rows`, otherwise it throws. -/
def Mat.mul [Semiring α] (A B : Mat α) : Option (Mat α) :=
  if A.n_cols = B.n_rows then
    some ⟨A.n_rows, B.n_cols,
      fun i j => ((List.range A.n_cols).map (fun k => A.elem i k * B.elem k j)).sum⟩
  else none

/-- Assignment of a matrix expression to a `vec`: needs a single column. -/
def Mat.toVec (A : Mat α) : Option (Vec α) :=
  if A.n_cols = 1 then some ((List.range A.n_rows).map (fun i => A.elem i 0)) else none

/-- The statement `vec y = A * x` for a matrix `A` and a column `x`. -/
def Mat.mulVec [Semiring α] (A : Mat α) (x : Vec α) : Option (Vec α) :=
  (A.mul (Vec.toMat x)).bind Mat.toVec

/-- Armadillo `as_scalar`: needs a `1 × 1` matrix. -/
def as_scalar (A : Mat α) : Option α :=
  if A.n_rows = 1 ∧ A.n_cols = 1 then some (A.elem 0 0) else none

/-- Armadillo `.t()` of a column vector: a `1 × n` row. -/
def Vec.t [Zero α] (v : Vec α) : Mat α := ⟨1, v.length, fun _ j => Vec.at v j⟩

/-- Armadillo `M.rows(first, last)` (both bounds included, checked). -/
def Mat.rows (M : Mat α) (first last : Int) : Option (Mat α) :=
  let r1 := to_uword first
  let r2 := to_uword last
  if r1 > r2 ∨ r2 ≥ M.n_rows then none
  else some ⟨r2 - r1 + 1, M.n_cols, fun i j => M.elem (r1 + i) j⟩

/-- Armadillo `v.rows(first, last)` on a column vector. -/
def Vec.rows (v : Vec α) (first last : Int) : Option (Vec α) :=
  let r1 := to_uword first
  let r2 := to_uword last
  if r1 > r2 ∨ r2 ≥ v.length then none
  else some ((v.drop r1).take (r2 - r1 + 1))

/-- The write `M.at(i, j) = x`. -/
def Mat.set (M : Mat α) (i j : Nat) (x : α) : Mat α :=
  { M with elem := fun a b => if a = i ∧ b = j then x else M.elem a b }

/-- Armadillo `M.diag()`: the main diagonal as a column. -/
def Mat.diag (M : Mat α) : Vec α := (List.range (min M.n_rows M.n_cols)).map (fun i => M.elem i i)

/-- Armadillo `trimatu_ind(size(n_rows, n_cols), k)`: the column-major linear
indices of the entries on or above the `k`-th diagonal, column by column. -/
def trimatu_ind (n_rows n_cols k : Nat) : UVec :=
  (List.range n_cols).flatMap (fun j =>
    ((List.range n_rows).filter (fun i => i + k ≤ j)).map (fun i => i + j * n_rows))

/-- Armadillo `M(indices)`: the entries at column-major linear indices (checked). -/
def Mat.elems (M : Mat α) (ind : UVec) : Option (Vec α) :=
  if ind.all (fun k => k < M.n_rows * M.n_cols) then
    some (ind.map (fun k => M.elem (k % M.n_rows) (k / M.n_rows)))
  else none

/-- Upper Cholesky factorisation on the leading `n × n` block, by elimination
of the first row: pivot `d = sqrt a₀₀` (failure when `a₀₀ ≤ 0`, as LAPACK
`potrf` reports), first row `a₀ⱼ / d`, then the same on the trailing block
`aᵢⱼ - u₀ᵢ u₀ⱼ`.  Only the upper triangle of the input decides the upper
triangle of the result; the strictly lower triangle of the result is zero. -/
def cholU [LinearOrderedField α] (sqrt : α → α) : (n : Nat) → (Nat → Nat → α) → Option (Nat → Nat → α)
  | 0, _ => some (fun _ _ => 0)
  | n + 1, A =>
    if 0 < A 0 0 then
      let d := sqrt (A 0 0)
      match cholU sqrt n (fun i j => A (i + 1) (j + 1) - (A 0 (i + 1) / d) * (A 0 (j + 1) / d)) with
      | none => none
      | some U => some (fun i j =>
          match i, j with
          | 0, 0 => d
          | 0, j + 1 => A 0 (j + 1) / d
          | _ + 1, 0 => 0
          | i + 1, j + 1 => U i j)
    else none

/-- Armadillo `chol(X)`: the upper-triangular `U` with `Uᵗ U = X`; throws when
`X` is not square or the factorisation meets a non-positive pivot. -/
def chol [LinearOrderedField α] (sqrt : α → α) (X : Mat α) : Option (Mat α) :=
  if X.n_rows = X.n_cols then
    (cholU sqrt X.n_rows X.elem).map (fun U => ⟨X.n_rows, X.n_cols, U⟩)
  else none

/-- Armadillo `sqrt(v)`: elementwise square root. -/
def Vec.sqrt (sqrt : α → α) (v : Vec α) : Vec α := v.map sqrt

/-- Modelled from the spec: `cov2cor` (declared in `JMbayes2_D.h`, not among
the sources) is the covariance-to-correlation conversion, the inverse of
`D = diag(sds) · R · diag(sds)` with `sds = sqrt(diag(D))`: entry `(i, j)` of
the result is `Dᵢⱼ · (1 / sqrt Dᵢᵢ) · (1 / sqrt Dⱼⱼ)`. -/
def cov2cor [Field α] (sqrt : α → α) (V : Mat α) : Mat α :=
  ⟨V.n_rows, V.n_cols, fun i j => V.elem i j * (1 / sqrt (V.elem i i)) * (1 / sqrt (V.elem j j))⟩

end LinAlg

/-- Conversion of an unsigned size to a C++ `int` (two-complement wrap). -/
def to_int (n : Nat) : Int := (((n + 2 ^ 31) % 2 ^ 32 : Nat) : Int) - 2 ^ 31

/-! ## The five argument lists of `mcmc_cpp` -/

/-- The entries of `model_data` that `mcmc_cpp` reads; index vectors hold
the values that `as<uvec>` delivers. -/
structure ModelData (α : Type) where
  Time_right : Vec α
  Time_left : Vec α
  Time_start : Vec α
  delta : Vec α
  which_event : UVec
  which_right : UVec
  which_left : UVec
  which_interval : UVec
  W0_H : Mat α
  W0_h : Mat α
  W0_H2 : Mat α
  W_H : Mat α
  W_h : Mat α
  W_H2 : Mat α
  W_bar : Mat α
  X_H : List (Mat α)
  X_h : List (Mat α)
  X_H2 : List (Mat α)
  Z_H : List (Mat α)
  Z_h : List (Mat α)
  Z_H2 : List (Mat α)
  U_H : List (Mat α)
  U_h : List (Mat α)
  U_H2 : List (Mat α)
  Wlong_H : List (Mat α)
  Wlong_h : List (Mat α)
  Wlong_H2 : List (Mat α)
  Wlong_bar : List (Mat α)
  idT : UVec
  log_Pwk : Vec α
  log_Pwk2 : Vec α
  id_H : UVec
  id_h : UVec
  any_gammas : Bool

/-- The entries of `model_info` that `mcmc_cpp` reads. -/
structure ModelInfo where
  FunForms_cpp : List UVec
  FunForms_ind : List UVec

/-- The entries of `initial_values` that `mcmc_cpp` reads. -/
structure InitialValues (α : Type) where
  bs_gammas : Vec α
  gammas : Vec α
  alphas : Vec α
  tau_bs_gammas : α
  b : List (Mat α)
  D : Mat α
  betas : List (Vec α)

/-- The entries of `priors` that `mcmc_cpp` reads. -/
structure Priors (α : Type) where
  mean_bs_gammas : Vec α
  Tau_bs_gammas : Mat α
  mean_gammas : Vec α
  Tau_gammas : Mat α
  mean_alphas : Vec α
  Tau_alphas : Mat α
  A_tau_bs_gammas : α
  rank_Tau_bs_gammas : α
  B_tau_bs_gammas : α
  prior_D_sds_df : α
  prior_D_sds_sigma : α
  prior_D_L_etaLKJ : α

/-- The entries of `control` that `mcmc_cpp` reads. -/
structure Control where
  n_iter : Int
  n_burnin : Int
  MALA : Bool

/-! ## State of the sampler -/

/-- The nine cached linear predictors. -/
structure LinPred (α : Type) where
  W0H_bs_gammas : Vec α
  W0h_bs_gammas : Vec α
  W0H2_bs_gammas : Vec α
  WH_gammas : Vec α
  Wh_gammas : Vec α
  WH2_gammas : Vec α
  WlongH_alphas : Vec α
  Wlongh_alphas : Vec α
  WlongH2_alphas : Vec α

/-- The read-only arguments that the three coefficient updaters share. -/
structure SurvData (α : Type) where
  log_Pwk : Vec α
  log_Pwk2 : Vec α
  id_H_fast : UVec
  which_event : UVec
  which_right_event : UVec
  which_left : UVec
  which_interval : UVec
  any_event : Bool
  any_interval : Bool
  prior_mean_bs_gammas : Vec α
  prior_Tau_bs_gammas : Mat α
  prior_mean_gammas : Vec α
  prior_Tau_gammas : Mat α
  prior_mean_alphas : Vec α
  prior_Tau_alphas : Mat α

/-- The arguments that a coefficient updater (`update_bs_gammas`,
`update_gammas`, `update_alphas`) receives by reference and may change, with
the state of the random-number generator it draws from. -/
structure CoefState (α ρ : Type) where
  bs_gammas : Vec α
  gammas : Vec α
  alphas : Vec α
  lp : LinPred α
  denominator_surv : α
  scale : Vec α
  acceptance : Mat α
  res : Mat α
  rng : ρ

/-- The arguments that `update_D` receives by reference and may change, with
the state of the random-number generator. -/
structure DState (α ρ : Type) where
  L : Mat α
  sds : Vec α
  res_sds : Mat α
  res_L : Mat α
  scale_sds : Vec α
  scale_L : Vec α
  acceptance_sds : Mat α
  acceptance_L : Mat α
  rng : ρ

/-- What `mcmc_fit.cpp` calls without defining: the helpers and updaters of the
package headers, `std::sqrt` and R's gamma generator.  `ρ` is the state of the
random-number generator. -/
structure Env (α ρ : Type) where
  sqrt : α → α
  List2Field_mat : List (Mat α) → List (Mat α)
  List2Field_vec : List (Vec α) → List (Vec α)
  List2Field_uvec : List UVec → Bool → List UVec
  docall_cbindL : List (Mat α) → Mat α
  docall_cbindF : List (Mat α) → Mat α
  create_fast_ind : UVec → UVec
  create_init_scale : Int → Vec α
  log_density_surv : LinPred α → Vec α → Vec α → UVec → UVec → UVec → UVec → Bool → UVec → α
  update_bs_gammas : SurvData α → α → Int → Mat α → Mat α → Mat α → CoefState α ρ → CoefState α ρ
  update_gammas : SurvData α → α → Int → Mat α → Mat α → Mat α → CoefState α ρ → CoefState α ρ
  update_alphas : SurvData α → α → Int → Mat α → Mat α → Mat α → CoefState α ρ → CoefState α ρ
  update_D : Mat α → UVec → α → α → α → Int → Bool → DState α ρ → DState α ρ
  rgamma : α → α → ρ → α × ρ

/-- Contents of the memory behind each buffer that `mcmc_cpp` allocates
without a fill (`mat(n, m)`, `vec(n)`). -/
structure Uninit (α : Type) where
  res_bs_gammas : Nat → Nat → α
  res_gammas : Nat → Nat → α
  res_W_bar_gammas : Nat → α
  res_alphas : Nat → Nat → α
  W0h_bs_gammas : Nat → α
  W0H2_bs_gammas : Nat → α
  WH_gammas : Nat → α
  Wh_gammas : Nat → α
  WH2_gammas : Nat → α
  Wlongh_alphas : Nat → α
  WlongH2_alphas : Nat → α

/-- The local variables of `mcmc_cpp` set by lines 15-74 (data and indices). -/
structure Loaded (α : Type) where
  Time_right : Vec α
  Time_left : Vec α
  Time_start : Vec α
  delta : Vec α
  which_event : UVec
  which_right : UVec
  which_right_event : UVec
  which_left : UVec
  which_interval : UVec
  W0_H : Mat α
  W0_h : Mat α
  W0_H2 : Mat α
  W_H : Mat α
  W_h : Mat α
  W_H2 : Mat α
  W_bar : Mat α
  X_H : List (Mat α)
  X_h : List (Mat α)
  X_H2 : List (Mat α)
  Z_H : List (Mat α)
  Z_h : List (Mat α)
  Z_H2 : List (Mat α)
  U_H : List (Mat α)
  U_h : List (Mat α)
  U_H2 : List (Mat α)
  Wlong_H : Mat α
  Wlong_h : Mat α
  Wlong_H2 : Mat α
  Wlong_bar : List (Mat α)
  idT : UVec
  log_Pwk : Vec α
  log_Pwk2 : Vec α
  id_H : UVec
  id_h : UVec
  id_H_fast : UVec
  any_gammas : Bool
  any_event : Bool
  any_interval : Bool
  FunForms : List UVec
  FunForms_ind : List UVec

/-- The local variables of `mcmc_cpp` that the loop changes. -/
structure ChainState (α ρ : Type) where
  bs_gammas : Vec α
  gammas : Vec α
  alphas : Vec α
  tau_bs_gammas : α
  L : Mat α
  sds : Vec α
  lp : LinPred α
  scale_bs_gammas : Vec α
  scale_gammas : Vec α
  scale_alphas : Vec α
  scale_sds : Vec α
  scale_L : Vec α
  res_bs_gammas : Mat α
  acceptance_bs_gammas : Mat α
  res_gammas : Mat α
  res_W_bar_gammas : Vec α
  acceptance_gammas : Mat α
  res_alphas : Mat α
  acceptance_alphas : Mat α
  res_tau_bs_gammas : Mat α
  res_sds : Mat α
  acceptance_sds : Mat α
  res_L : Mat α
  acceptance_L : Mat α
  rng : ρ

/-- The state inside one pass of the loop: the chain state and the loop-local
`denominator_surv`. -/
structure IterState (α ρ : Type) where
  chain : ChainState α ρ
  denominator_surv : α

/-- The list `mcmc` of the returned value. -/
structure McmcOut (α : Type) where
  bs_gammas : Mat α
  tau_bs_gammas : Mat α
  gammas : Mat α
  W_bar_gammas : Vec α
  alphas : Mat α
  sds : Mat α
  L : Mat α

/-- The list `acc_rate` of the returned value. -/
structure AccOut (α : Type) where
  bs_gammas : Mat α
  gammas : Mat α
  alphas : Mat α
  sds : Mat α
  L : Mat α

/-- The value returned by `mcmc_cpp`. -/
structure Output (α : Type) where
  mcmc : McmcOut α
  acc_rate : AccOut α

/-- The local variables of `mcmc_cpp` set by lines 76-113 that the loop only
reads, with the loaded data. -/
structure Setup (α : Type) where
  d : Loaded α
  b_mat : Mat α
  R : Mat α
  betas : List (Vec α)
  upper_part : UVec
  n_iter : Int
  n_burnin : Int
  MALA : Bool
  prior_mean_bs_gammas : Vec α
  prior_Tau_bs_gammas : Mat α
  prior_mean_gammas : Vec α
  prior_Tau_gammas : Mat α
  prior_mean_alphas : Vec α
  prior_Tau_alphas : Mat α
  post_A_tau_bs_gammas : α
  prior_B_tau_bs_gammas : α
  prior_D_sds_df : α
  prior_D_sds_sigma : α
  prior_D_L_etaLKJ : α
  n_bs_gammas : Int
  n_gammas : Int
  n_alphas : Int
  n_sds : Int
  n_L : Int

/-! ## `mcmc_cpp`, statement by statement -/

section Driver

variable {α ρ : Type}

/-- The quadratic form `zᵗ · Tau · z`. -/
def quad_form [Semiring α] (z : Vec α) (Tau : Mat α) : α :=
  ((List.range z.length).map (fun i =>
    ((List.range z.length).map (fun j => Vec.at z i * Tau.elem i j * Vec.at z j)).sum)).sum

/-- Modelled from the spec: `logPrior` (declared in `JMbayes2_Surv.h`, not
among the sources) is the multivariate-normal log-density of a coefficient
vector given prior mean and precision matrix, up to and including the
quadratic form, scaled by the precision scalar:
`-1/2 · tau · (x - mean)ᵗ · Tau · (x - mean)`. -/
def logPrior [Field α] (x mean : Vec α) (Tau : Mat α) (tau : α) : α :=
  -(1 / 2) * tau * quad_form (List.zipWith (fun a b => a - b) x mean) Tau

/-- Lines 15-74: the data, the index sets and the flags. -/
def load (env : Env α ρ) (md : ModelData α) (mi : ModelInfo) : Loaded α :=
  let which_event := uvec_minus_one md.which_event
  let which_right := uvec_minus_one md.which_right
  let which_interval := uvec_minus_one md.which_interval
  let id_H := uvec_minus_one md.id_H
  { Time_right := md.Time_right
    Time_left := md.Time_left
    Time_start := md.Time_start
    delta := md.Time_start
    which_event := which_event
    which_right := which_right
    which_right_event := join_cols which_event which_right
    which_left := uvec_minus_one md.which_left
    which_interval := which_interval
    W0_H := md.W0_H
    W0_h := md.W0_h
    W0_H2 := md.W0_H2
    W_H := md.W_H
    W_h := md.W_h
    W_H2 := md.W_H2
    W_bar := md.W_bar
    X_H := env.List2Field_mat md.X_H
    X_h := env.List2Field_mat md.X_H
    X_H2 := env.List2Field_mat md.X_H2
    Z_H := env.List2Field_mat md.Z_H
    Z_h := env.List2Field_mat md.X_H
    Z_H2 := env.List2Field_mat md.Z_H2
    U_H := env.List2Field_mat md.U_H
    U_h := env.List2Field_mat md.U_h
    U_H2 := env.List2Field_mat md.U_H2
    Wlong_H := env.docall_cbindL md.Wlong_H
    Wlong_h := env.docall_cbindL md.Wlong_h
    Wlong_H2 := env.docall_cbindL md.Wlong_H2
    Wlong_bar := env.List2Field_mat md.Wlong_bar
    idT := uvec_minus_one md.idT
    log_Pwk := md.log_Pwk
    log_Pwk2 := md.log_Pwk2
    id_H := id_H
    id_h := uvec_minus_one md.id_h
    id_H_fast := env.create_fast_ind (uvec_plus_one id_H)
    any_gammas := md.any_gammas
    any_event := decide (which_event.length > 0)
    any_interval := decide (which_interval.length > 0)
    FunForms := env.List2Field_uvec mi.FunForms_cpp true
    FunForms_ind := env.List2Field_uvec mi.FunForms_ind true }

/-- Lines 132-162: the nine cached linear predictors before the first pass. -/
def preliminaries [Field α] (d : Loaded α) (bs_gammas gammas alphas : Vec α) (u : Uninit α) :
    Option (LinPred α) := do
  let W0H_bs_gammas ← d.W0_H.mulVec bs_gammas
  let W0h_bs_gammas := Vec.uninit u.W0h_bs_gammas d.W0_h.n_rows
  let W0H2_bs_gammas := Vec.uninit u.W0H2_bs_gammas d.W0_H2.n_rows
  let W0h_bs_gammas ← if d.any_event then d.W0_h.mulVec bs_gammas else some W0h_bs_gammas
  let W0H2_bs_gammas ← if d.any_interval then d.W0_H2.mulVec bs_gammas else some W0H2_bs_gammas
  let WH_gammas := Vec.uninit u.WH_gammas d.W0_H.n_rows
  let Wh_gammas := Vec.uninit u.Wh_gammas d.W0_h.n_rows
  let WH2_gammas := Vec.uninit u.WH2_gammas d.W0_H2.n_rows
  let WH_gammas ← if d.any_gammas then d.W_H.mulVec gammas else some WH_gammas
  let Wh_gammas ← if d.any_gammas && d.any_event then d.W_h.mulVec gammas else some Wh_gammas
  let WH2_gammas ← if d.any_gammas && d.any_interval then (Vec.toMat WH2_gammas).mulVec gammas
    else some WH2_gammas
  let WlongH_alphas ← d.Wlong_H.mulVec alphas
  let Wlongh_alphas := Vec.uninit u.Wlongh_alphas d.W0_h.n_rows
  let Wlongh_alphas ← if d.any_event then d.Wlong_h.mulVec alphas else some Wlongh_alphas
  let WlongH2_alphas := Vec.uninit u.WlongH2_alphas d.W0_H2.n_rows
  let WlongH2_alphas ← if d.any_interval then d.Wlong_H2.mulVec alphas else some WlongH2_alphas
  pure { W0H_bs_gammas := W0H_bs_gammas, W0h_bs_gammas := W0h_bs_gammas,
         W0H2_bs_gammas := W0H2_bs_gammas, WH_gammas := WH_gammas, Wh_gammas := Wh_gammas,
         WH2_gammas := WH2_gammas, WlongH_alphas := WlongH_alphas,
         Wlongh_alphas := Wlongh_alphas, WlongH2_alphas := WlongH2_alphas }

/-- Lines 15-162: everything before the loop.  `rng` is the state of the
random-number generator at the call. -/
def setup [LinearOrderedField α] (env : Env α ρ) (md : ModelData α) (mi : ModelInfo)
    (iv : InitialValues α) (pr : Priors α) (c : Control) (u : Uninit α) (rng : ρ) :
    Option (Setup α × ChainState α ρ) := do
  let d := load env md mi
  -- initial values
  let bs_gammas := iv.bs_gammas
  let gammas := iv.gammas
  let alphas := iv.alphas
  let tau_bs_gammas := iv.tau_bs_gammas
  let b := env.List2Field_mat iv.b
  let b_mat := env.docall_cbindF b
  let D := iv.D
  let sds := Vec.sqrt env.sqrt D.diag
  let R := cov2cor env.sqrt D
  let L ← chol env.sqrt R
  let betas := env.List2Field_vec iv.betas
  -- indexes or other useful things
  let upper_part := trimatu_ind R.n_rows R.n_cols 1
  -- MCMC settings
  let n_iter := c.n_iter
  let n_burnin := c.n_burnin
  -- priors
  let post_A_tau_bs_gammas := pr.A_tau_bs_gammas + 1 / 2 * pr.rank_Tau_bs_gammas
  -- store results
  let n_bs_gammas := to_int bs_gammas.length
  let n_gammas := to_int gammas.length
  let n_alphas := to_int alphas.length
  let n_sds := to_int sds.length
  let n_L := to_int (← L.elems upper_part).length
  let res_bs_gammas := Mat.uninit u.res_bs_gammas (to_uword n_iter) (to_uword n_bs_gammas)
  let acceptance_bs_gammas : Mat α := Mat.zeros (to_uword n_iter) (to_uword n_bs_gammas)
  let res_gammas := Mat.uninit u.res_gammas (to_uword n_iter) (to_uword n_gammas)
  let res_W_bar_gammas := Vec.uninit u.res_W_bar_gammas (to_uword n_iter)
  let acceptance_gammas : Mat α := Mat.zeros (to_uword n_iter) (to_uword n_gammas)
  let res_alphas := Mat.uninit u.res_alphas (to_uword n_iter) (to_uword n_alphas)
  let acceptance_alphas : Mat α := Mat.zeros (to_uword n_iter) (to_uword n_alphas)
  let res_tau_bs_gammas : Mat α := Mat.zeros (to_uword n_iter) 1
  let res_sds : Mat α := Mat.zeros (to_uword n_iter) (to_uword n_sds)
  let acceptance_sds : Mat α := Mat.zeros (to_uword n_iter) (to_uword n_sds)
  let res_L : Mat α := Mat.zeros (to_uword n_iter) (to_uword n_L)
  let acceptance_L : Mat α := Mat.zeros (to_uword n_iter) (to_uword n_L)
  -- scales
  let scale_bs_gammas := env.create_init_scale n_bs_gammas
  let scale_gammas := env.create_init_scale n_gammas
  let scale_alphas := env.create_init_scale n_alphas
  let scale_sds := env.create_init_scale n_sds
  let scale_L := env.create_init_scale n_L
  -- preliminaries
  let lp ← preliminaries d bs_gammas gammas alphas u
  pure (
    { d := d, b_mat := b_mat, R := R, betas := betas, upper_part := upper_part,
      n_iter := n_iter, n_burnin := n_burnin, MALA := c.MALA,
      prior_mean_bs_gammas := pr.mean_bs_gammas, prior_Tau_bs_gammas := pr.Tau_bs_gammas,
      prior_mean_gammas := pr.mean_gammas, prior_Tau_gammas := pr.Tau_gammas,
      prior_mean_alphas := pr.mean_alphas, prior_Tau_alphas := pr.Tau_alphas,
      post_A_tau_bs_gammas := post_A_tau_bs_gammas,
      prior_B_tau_bs_gammas := pr.B_tau_bs_gammas,
      prior_D_sds_df := pr.prior_D_sds_df, prior_D_sds_sigma := pr.prior_D_sds_sigma,
      prior_D_L_etaLKJ := pr.prior_D_L_etaLKJ,
      n_bs_gammas := n_bs_gammas, n_gammas := n_gammas, n_alphas := n_alphas,
      n_sds := n_sds, n_L := n_L },
    { bs_gammas := bs_gammas, gammas := gammas, alphas := alphas,
      tau_bs_gammas := tau_bs_gammas, L := L, sds := sds, lp := lp,
      scale_bs_gammas := scale_bs_gammas, scale_gammas := scale_gammas,
      scale_alphas := scale_alphas, scale_sds := scale_sds, scale_L := scale_L,
      res_bs_gammas := res_bs_gammas, acceptance_bs_gammas := acceptance_bs_gammas,
      res_gammas := res_gammas, res_W_bar_gammas := res_W_bar_gammas,
      acceptance_gammas := acceptance_gammas, res_alphas := res_alphas,
      acceptance_alphas := acceptance_alphas, res_tau_bs_gammas := res_tau_bs_gammas,
      res_sds := res_sds, acceptance_sds := acceptance_sds, res_L := res_L,
      acceptance_L := acceptance_L, rng := rng })

/-- The read-only arguments of the coefficient updaters, as the calls pass them. -/
def Setup.survData (su : Setup α) : SurvData α :=
  { log_Pwk := su.d.log_Pwk, log_Pwk2 := su.d.log_Pwk2, id_H_fast := su.d.id_H_fast,
    which_event := su.d.which_event, which_right_event := su.d.which_right_event,
    which_left := su.d.which_left, which_interval := su.d.which_interval,
    any_event := su.d.any_event, any_interval := su.d.any_interval,
    prior_mean_bs_gammas := su.prior_mean_bs_gammas,
    prior_Tau_bs_gammas := su.prior_Tau_bs_gammas,
    prior_mean_gammas := su.prior_mean_gammas, prior_Tau_gammas := su.prior_Tau_gammas,
    prior_mean_alphas := su.prior_mean_alphas, prior_Tau_alphas := su.prior_Tau_alphas }

/-- The expression of lines 165-173 at a chain state: the survival
log-likelihood plus the three prior log-densities. -/
def log_posterior [Field α] (env : Env α ρ) (su : Setup α) (s : ChainState α ρ) : α :=
  env.log_density_surv s.lp su.d.log_Pwk su.d.log_Pwk2 su.d.id_H_fast
      su.d.which_event su.d.which_right_event su.d.which_left
      su.d.any_interval su.d.which_interval +
    logPrior s.bs_gammas su.prior_mean_bs_gammas su.prior_Tau_bs_gammas s.tau_bs_gammas +
    logPrior s.gammas su.prior_mean_gammas su.prior_Tau_gammas 1 +
    logPrior s.alphas su.prior_mean_alphas su.prior_Tau_alphas 1

/-- Lines 164-173: `denominator_surv` is declared and set. -/
def phase_denominator [Field α] (env : Env α ρ) (su : Setup α) (s : ChainState α ρ) :
    IterState α ρ :=
  { chain := s, denominator_surv := log_posterior env su s }

/-- Lines 174-187: the call of `update_bs_gammas`. -/
def phase_bs_gammas (env : Env α ρ) (su : Setup α) (it : Int) (t : IterState α ρ) :
    IterState α ρ :=
  let s := t.chain
  let r := env.update_bs_gammas su.survData s.tau_bs_gammas it su.d.W0_H su.d.W0_h su.d.W0_H2
    { bs_gammas := s.bs_gammas, gammas := s.gammas, alphas := s.alphas, lp := s.lp,
      denominator_surv := t.denominator_surv, scale := s.scale_bs_gammas,
      acceptance := s.acceptance_bs_gammas, res := s.res_bs_gammas, rng := s.rng }
  { chain := { s with bs_gammas := r.bs_gammas, gammas := r.gammas, alphas := r.alphas,
                      lp := r.lp, scale_bs_gammas := r.scale,
                      acceptance_bs_gammas := r.acceptance, res_bs_gammas := r.res,
                      rng := r.rng },
    denominator_surv := r.denominator_surv }

/-- Line 189-190: `post_B_tau_bs_gammas`. -/
def post_B_tau_bs_gammas [Field α] (su : Setup α) (bs_gammas : Vec α) : Option α := do
  let bT ← (Vec.t bs_gammas).mul su.prior_Tau_bs_gammas
  let bTb ← bT.mul (Vec.toMat bs_gammas)
  let q ← as_scalar bTb
  pure (su.prior_B_tau_bs_gammas + 1 / 2 * q)

/-- Lines 189-192: the Gibbs step for `tau_bs_gammas`. -/
def phase_tau [Field α] (env : Env α ρ) (su : Setup α) (it : Int) (t : IterState α ρ) :
    Option (IterState α ρ) := do
  let s := t.chain
  let post_B ← post_B_tau_bs_gammas su s.bs_gammas
  let draw := env.rgamma su.post_A_tau_bs_gammas (1 / post_B) s.rng
  let tau_bs_gammas := draw.1
  pure { t with chain := { s with tau_bs_gammas := tau_bs_gammas, rng := draw.2,
                                  res_tau_bs_gammas := s.res_tau_bs_gammas.set (to_uword it) 0 tau_bs_gammas } }

/-- Lines 194-210: the guarded call of `update_gammas` and the write of
`res_W_bar_gammas`. -/
def phase_gammas [Field α] (env : Env α ρ) (su : Setup α) (it : Int) (t : IterState α ρ) :
    Option (IterState α ρ) :=
  if su.d.any_gammas then do
    let s := t.chain
    let r := env.update_gammas su.survData s.tau_bs_gammas it su.d.W_H su.d.W_h su.d.W_H2
      { bs_gammas := s.bs_gammas, gammas := s.gammas, alphas := s.alphas, lp := s.lp,
        denominator_surv := t.denominator_surv, scale := s.scale_gammas,
        acceptance := s.acceptance_gammas, res := s.res_gammas, rng := s.rng }
    let w ← as_scalar (← su.d.W_bar.mul (Vec.toMat r.gammas))
    pure { chain := { s with bs_gammas := r.bs_gammas, gammas := r.gammas, alphas := r.alphas,
                             lp := r.lp, scale_gammas := r.scale,
                             acceptance_gammas := r.acceptance, res_gammas := r.res,
                             rng := r.rng,
                             res_W_bar_gammas := s.res_W_bar_gammas.set (to_uword it) w },
           denominator_surv := r.denominator_surv }
  else some t

/-- Lines 212-225: the call of `update_alphas`. -/
def phase_alphas (env : Env α ρ) (su : Setup α) (it : Int) (t : IterState α ρ) :
    IterState α ρ :=
  let s := t.chain
  let r := env.update_alphas su.survData s.tau_bs_gammas it su.d.Wlong_H su.d.Wlong_h
    su.d.Wlong_H2
    { bs_gammas := s.bs_gammas, gammas := s.gammas, alphas := s.alphas, lp := s.lp,
      denominator_surv := t.denominator_surv, scale := s.scale_alphas,
      acceptance := s.acceptance_alphas, res := s.res_alphas, rng := s.rng }
  { chain := { s with bs_gammas := r.bs_gammas, gammas := r.gammas, alphas := r.alphas,
                      lp := r.lp, scale_alphas := r.scale,
                      acceptance_alphas := r.acceptance, res_alphas := r.res,
                      rng := r.rng },
    denominator_surv := r.denominator_surv }

/-- Lines 227-230: the call of `update_D`; `denominator_surv` goes out of scope. -/
def phase_D (env : Env α ρ) (su : Setup α) (it : Int) (t : IterState α ρ) :
    ChainState α ρ :=
  let s := t.chain
  let r := env.update_D su.b_mat su.upper_part su.prior_D_sds_df su.prior_D_sds_sigma
    su.prior_D_L_etaLKJ it su.MALA
    { L := s.L, sds := s.sds, res_sds := s.res_sds, res_L := s.res_L,
      scale_sds := s.scale_sds, scale_L := s.scale_L,
      acceptance_sds := s.acceptance_sds, acceptance_L := s.acceptance_L, rng := s.rng }
  { s with L := r.L, sds := r.sds, res_sds := r.res_sds, res_L := r.res_L,
           scale_sds := r.scale_sds, scale_L := r.scale_L,
           acceptance_sds := r.acceptance_sds, acceptance_L := r.acceptance_L, rng := r.rng }

/-- Lines 164-230: the body of the loop at iteration `it`. -/
def iteration [Field α] (env : Env α ρ) (su : Setup α) (it : Int) (s : ChainState α ρ) :
    Option (ChainState α ρ) := do
  let t := phase_denominator env su s
  let t := phase_bs_gammas env su it t
  let t ← phase_tau env su it t
  let t ← phase_gammas env su it t
  let t := phase_alphas env su it t
  pure (phase_D env su it t)

/-- Line 163: `for (int it = 0; it < n_iter; ++it)`, run for the first `k` passes. -/
def loop [Field α] (env : Env α ρ) (su : Setup α) : Nat → ChainState α ρ → Option (ChainState α ρ)
  | 0, s => some s
  | k + 1, s => (loop env su k s).bind (iteration env su (k : Int))

/-- Lines 232-249: the returned lists, each buffer cut to rows
`n_burnin .. n_iter - 1`. -/
def finalize (su : Setup α) (s : ChainState α ρ) : Option (Output α) := do
  let n_burnin := su.n_burnin
  let n_iter := su.n_iter
  let m_bs_gammas ← s.res_bs_gammas.rows n_burnin (n_iter - 1)
  let m_tau_bs_gammas ← s.res_tau_bs_gammas.rows n_burnin (n_iter - 1)
  let m_gammas ← s.res_gammas.rows n_burnin (n_iter - 1)
  let m_W_bar_gammas ← Vec.rows s.res_W_bar_gammas n_burnin (n_iter - 1)
  let m_alphas ← s.res_alphas.rows n_burnin (n_iter - 1)
  let m_sds ← s.res_sds.rows n_burnin (n_iter - 1)
  let m_L ← s.res_L.rows n_burnin (n_iter - 1)
  let a_bs_gammas ← s.acceptance_bs_gammas.rows n_burnin (n_iter - 1)
  let a_gammas ← s.acceptance_gammas.rows n_burnin (n_iter - 1)
  let a_alphas ← s.acceptance_alphas.rows n_burnin (n_iter - 1)
  let a_sds ← s.acceptance_sds.rows n_burnin (n_iter - 1)
  let a_L ← s.acceptance_L.rows n_burnin (n_iter - 1)
  pure { mcmc := { bs_gammas := m_bs_gammas, tau_bs_gammas := m_tau_bs_gammas,
                   gammas := m_gammas, W_bar_gammas := m_W_bar_gammas, alphas := m_alphas,
                   sds := m_sds, L := m_L },
         acc_rate := { bs_gammas := a_bs_gammas, gammas := a_gammas, alphas := a_alphas,
                       sds := a_sds, L := a_L } }

/-- The trace buffers when the loop has ended (lines 15-231). -/
def run_chain [LinearOrderedField α] (env : Env α ρ) (md : ModelData α) (mi : ModelInfo)
    (iv : InitialValues α) (pr : Priors α) (c : Control) (u : Uninit α) (rng : ρ) :
    Option (Setup α × ChainState α ρ) := do
  let (su, s0) ← setup env md mi iv pr c u rng
  let s ← loop env su su.n_iter.toNat s0
  pure (su, s)

/-- The function `mcmc_cpp`: `none` when an Armadillo check throws. -/
def mcmc_cpp [LinearOrderedField α] (env : Env α ρ) (md : ModelData α) (mi : ModelInfo)
    (iv : InitialValues α) (pr : Priors α) (c : Control) (u : Uninit α) (rng : ρ) :
    Option (Output α) := do
  let (su, s) ← run_chain env md mi iv pr c u rng
  finalize su s

end Driver

/-! ## A reference environment and small inputs

Stand-ins for the collaborators of the package headers, used to run the
driver on concrete inputs: a flat survival likelihood, updaters that reject
every proposal (they record the current value in row `it` of their trace and
change nothing else), a gamma generator that reads its draws from a list. -/

/-- Square root of a rational, exact on squares of rationals. -/
def sqrtQ (x : ℚ) : ℚ := (Nat.sqrt x.num.toNat : ℚ) / (Nat.sqrt x.den : ℚ)

/-- Column-wise concatenation of two matrices. -/
def cbind2 {α : Type} (A B : Mat α) : Mat α :=
  ⟨A.n_rows, A.n_cols + B.n_cols,
    fun i j => if j < A.n_cols then A.elem i j else B.elem i (j - A.n_cols)⟩

/-- Column-wise concatenation of a list of matrices. -/
def cbind {α : Type} [Zero α] : List (Mat α) → Mat α
  | [] => Mat.zeros 0 0
  | A :: rest => rest.foldl cbind2 A

/-- The write `M.row(i) = v`. -/
def Mat.setRow {α : Type} [Zero α] (M : Mat α) (i : Nat) (v : Vec α) : Mat α :=
  { M with elem := fun a b => if a = i then Vec.at v b else M.elem a b }

/-- A coefficient updater that rejects every proposal; `cur` selects the block. -/
def rejecting_updater {α ρ : Type} [Zero α] (cur : CoefState α ρ → Vec α) (it : Int)
    (st : CoefState α ρ) : CoefState α ρ :=
  { st with res := st.res.setRow (to_uword it) (cur st) }

/-- The reference environment. -/
def refEnv : Env ℚ (List ℚ) :=
  { sqrt := sqrtQ
    List2Field_mat := fun l => l
    List2Field_vec := fun l => l
    List2Field_uvec := fun l _ => l
    docall_cbindL := cbind
    docall_cbindF := cbind
    create_fast_ind := fun g => g
    create_init_scale := fun n => List.replicate n.toNat (1 / 10)
    log_density_surv := fun _ _ _ _ _ _ _ _ _ => 0
    update_bs_gammas := fun _ _ it _ _ _ st => rejecting_updater (fun s => s.bs_gammas) it st
    update_gammas := fun _ _ it _ _ _ st => rejecting_updater (fun s => s.gammas) it st
    update_alphas := fun _ _ it _ _ _ st => rejecting_updater (fun s => s.alphas) it st
    update_D := fun _ _ _ _ _ it _ st =>
      { st with res_sds := st.res_sds.setRow (to_uword it) st.sds }
    rgamma := fun _ _ rng => (rng.headD 1, rng.tail) }

/-- The reference environment with a gamma generator that appends the shape
and the scale it is called with to the generator state. -/
def recEnv : Env ℚ (List ℚ) :=
  { refEnv with rgamma := fun shape scale rng => (rng.headD 1, rng.tail ++ [shape, scale]) }

/-- Uninitialised memory that holds the value `x` everywhere. -/
def Uninit.const {α : Type} (x : α) : Uninit α :=
  { res_bs_gammas := fun _ _ => x, res_gammas := fun _ _ => x, res_W_bar_gammas := fun _ => x,
    res_alphas := fun _ _ => x, W0h_bs_gammas := fun _ => x, W0H2_bs_gammas := fun _ => x,
    WH_gammas := fun _ => x, Wh_gammas := fun _ => x, WH2_gammas := fun _ => x,
    Wlongh_alphas := fun _ => x, WlongH2_alphas := fun _ => x }

/-- Small model data: two subjects, the first with an observed event and the
second right-censored, one quadrature row per subject, one baseline-hazard
coefficient, one longitudinal outcome, no baseline covariates. -/
def md0 : ModelData ℚ :=
  { Time_right := [1, 2], Time_left := [0, 0], Time_start := [0, 0], delta := [1, 0]
    which_event := [1], which_right := [2], which_left := [], which_interval := []
    W0_H := Mat.ofRows 1 [[1], [1]], W0_h := Mat.ofRows 1 [[1]], W0_H2 := Mat.ofRows 1 []
    W_H := Mat.ofRows 0 [[], []], W_h := Mat.ofRows 0 [[]], W_H2 := Mat.ofRows 0 []
    W_bar := Mat.ofRows 0 [[]]
    X_H := [Mat.ofRows 1 [[1], [1]]], X_h := [Mat.ofRows 1 [[1]]], X_H2 := [Mat.ofRows 1 []]
    Z_H := [Mat.ofRows 1 [[1], [1]]], Z_h := [Mat.ofRows 1 [[1]]], Z_H2 := [Mat.ofRows 1 []]
    U_H := [Mat.ofRows 1 [[1], [1]]], U_h := [Mat.ofRows 1 [[1]]], U_H2 := [Mat.ofRows 1 []]
    Wlong_H := [Mat.ofRows 1 [[1], [2]]], Wlong_h := [Mat.ofRows 1 [[1]]]
    Wlong_H2 := [Mat.ofRows 1 []], Wlong_bar := [Mat.ofRows 1 [[1]]]
    idT := [1, 2], log_Pwk := [0, 0], log_Pwk2 := []
    id_H := [1, 2], id_h := [1]
    any_gammas := false }

/-- Model information for `md0`. -/
def mi0 : ModelInfo := { FunForms_cpp := [[1]], FunForms_ind := [[1]] }

/-- Initial values for `md0`: one random effect with unit variance. -/
def iv0 : InitialValues ℚ :=
  { bs_gammas := [1], gammas := [], alphas := [1], tau_bs_gammas := 1
    b := [Mat.ofRows 1 [[0], [0]]], D := Mat.ofRows 1 [[1]], betas := [[0]] }

/-- Priors for `md0`. -/
def pr0 : Priors ℚ :=
  { mean_bs_gammas := [0], Tau_bs_gammas := Mat.ofRows 1 [[1]]
    mean_gammas := [], Tau_gammas := Mat.ofRows 0 []
    mean_alphas := [0], Tau_alphas := Mat.ofRows 1 [[1]]
    A_tau_bs_gammas := 1, rank_Tau_bs_gammas := 1, B_tau_bs_gammas := 1 / 2
    prior_D_sds_df := 3, prior_D_sds_sigma := 10, prior_D_L_etaLKJ := 3 }

/-- One iteration, no burn-in. -/
def c0 : Control := { n_iter := 1, n_burnin := 0, MALA := false }

/-- Three iterations, the first discarded. -/
def c1 : Control := { n_iter := 3, n_burnin := 1, MALA := false }

/-- Model data with two baseline covariates and an interval-censored second
subject (one `H2` quadrature row). -/
def md7 : ModelData ℚ :=
  { md0 with
    which_right := [], which_interval := [2]
    W0_H2 := Mat.ofRows 1 [[1]]
    W_H := Mat.ofRows 2 [[1, 0], [0, 1]], W_h := Mat.ofRows 2 [[1, 0]]
    W_H2 := Mat.ofRows 2 [[3, 4]], W_bar := Mat.ofRows 2 [[1, 1]]
    X_H2 := [Mat.ofRows 1 [[1]]], Z_H2 := [Mat.ofRows 1 [[1]]], U_H2 := [Mat.ofRows 1 [[1]]]
    Wlong_H2 := [Mat.ofRows 1 [[1]]], log_Pwk2 := [0]
    any_gammas := true }

/-- Initial values for `md7`: two baseline-covariate coefficients. -/
def iv7 : InitialValues ℚ := { iv0 with gammas := [1, 2] }

/-- Priors for `md7`. -/
def pr7 : Priors ℚ :=
  { pr0 with mean_gammas := [0, 0], Tau_gammas := Mat.ofRows 2 [[1, 0], [0, 1]] }

/-- As `md7` with a single baseline covariate. -/
def md7a : ModelData ℚ :=
  { md7 with
    W_H := Mat.ofRows 1 [[1], [1]], W_h := Mat.ofRows 1 [[1]]
    W_H2 := Mat.ofRows 1 [[3]], W_bar := Mat.ofRows 1 [[1]] }

/-- As `md7a` without an interval-censored record. -/
def md1 : ModelData ℚ := { md7a with which_interval := [] }

/-- Initial values for `md7a`: one baseline-covariate coefficient. -/
def iv7a : InitialValues ℚ := { iv0 with gammas := [2] }

/-- Priors for `md7a`. -/
def pr7a : Priors ℚ := { pr0 with mean_gammas := [0], Tau_gammas := Mat.ofRows 1 [[1]] }

/-- Priors as `pr0` with prior mean `1` for the baseline-hazard coefficient. -/
def pr9 : Priors ℚ := { pr0 with mean_bs_gammas := [1] }

/-! ## Predicates used in the statements -/

/-- The rate of the Gamma full conditional of `tau_bs_gammas` as the
specification states it: `B + 1/2 · (x - mean)ᵗ · Tau · (x - mean)`, the
quadratic form being the one of the `bs_gammas` prior (`logPrior`). -/
def rate_tau_spec {α : Type} [Field α] (B : α) (x mean : Vec α) (Tau : Mat α) : α :=
  B + 1 / 2 * quad_form (List.zipWith (fun a b => a - b) x mean) Tau

/-- All entries of the index vector are `uword` values. -/
def UVec.inRange (v : UVec) : Prop := ∀ x ∈ v, x < 2 ^ uword_bits

/-- All entries of the index vector are at least `1` (a 1-based index set). -/
def UVec.oneBased (v : UVec) : Prop := ∀ x ∈ v, 1 ≤ x

/-- The vector `zero` is `one` shifted from 1-based to 0-based: same length,
and entry by entry `zero[k] = one[k] - 1` as integers. -/
def ZeroBasedOf (zero one : UVec) : Prop :=
  zero.length = one.length ∧
    ∀ k, k < one.length → ((zero.getD k 0 : Nat) : Int) = ((one.getD k 0 : Nat) : Int) - 1

/-- The updaters write into the trace buffers they are handed in place: they
return them with the same number of rows. -/
def Env.KeepsRows {α ρ : Type} (env : Env α ρ) : Prop :=
  (∀ sd tau it A B C st,
      (env.update_bs_gammas sd tau it A B C st).res.n_rows = st.res.n_rows ∧
      (env.update_bs_gammas sd tau it A B C st).acceptance.n_rows = st.acceptance.n_rows) ∧
  (∀ sd tau it A B C st,
      (env.update_gammas sd tau it A B C st).res.n_rows = st.res.n_rows ∧
      (env.update_gammas sd tau it A B C st).acceptance.n_rows = st.acceptance.n_rows) ∧
  (∀ sd tau it A B C st,
      (env.update_alphas sd tau it A B C st).res.n_rows = st.res.n_rows ∧
      (env.update_alphas sd tau it A B C st).acceptance.n_rows = st.acceptance.n_rows) ∧
  (∀ b up df sg eta it mala st,
      (env.update_D b up df sg eta it mala st).res_sds.n_rows = st.res_sds.n_rows ∧
      (env.update_D b up df sg eta it mala st).res_L.n_rows = st.res_L.n_rows ∧
      (env.update_D b up df sg eta it mala st).acceptance_sds.n_rows = st.acceptance_sds.n_rows ∧
      (env.update_D b up df sg eta it mala st).acceptance_L.n_rows = st.acceptance_L.n_rows)

/-- Every trace buffer of the chain state has `n` rows. -/
def ChainState.TraceRows {α ρ : Type} (s : ChainState α ρ) (n : Nat) : Prop :=
  s.res_bs_gammas.n_rows = n ∧ s.acceptance_bs_gammas.n_rows = n ∧
  s.res_gammas.n_rows = n ∧ s.res_W_bar_gammas.length = n ∧
  s.acceptance_gammas.n_rows = n ∧ s.res_alphas.n_rows = n ∧
  s.acceptance_alphas.n_rows = n ∧ s.res_tau_bs_gammas.n_rows = n ∧
  s.res_sds.n_rows = n ∧ s.acceptance_sds.n_rows = n ∧
  s.res_L.n_rows = n ∧ s.acceptance_L.n_rows = n

/-- The matrix `out` is the trailing slice of the `n_iter`-row buffer `buf`:
`n_iter - n_burnin` rows, row `i` being row `n_burnin + i` of `buf`. -/
def Mat.IsTrailingSlice {α : Type} (out buf : Mat α) (n_burnin n_iter : Nat) : Prop :=
  buf.n_rows = n_iter ∧ out.n_rows = n_iter - n_burnin ∧ out.n_cols = buf.n_cols ∧
    ∀ i j, i < n_iter - n_burnin → out.elem i j = buf.elem (n_burnin + i) j

/-- The column `out` is the trailing slice of the `n_iter`-entry buffer `buf`. -/
def Vec.IsTrailingSlice {α : Type} (out buf : Vec α) (n_burnin n_iter : Nat) : Prop :=
  buf.length = n_iter ∧ out.length = n_iter - n_burnin ∧
    ∀ i, i < n_iter - n_burnin → out.get? i = buf.get? (n_burnin + i)

/-- The seven index vectors of the model data hold `uword` values. -/
def ModelData.uwordIndices {α : Type} (md : ModelData α) : Prop :=
  UVec.inRange md.which_event ∧ UVec.inRange md.which_right ∧ UVec.inRange md.which_left ∧
  UVec.inRange md.which_interval ∧ UVec.inRange md.idT ∧ UVec.inRange md.id_H ∧
  UVec.inRange md.id_h

/-- The leading `n × n` block of `A` is symmetric. -/
def SymN {α : Type} (n : Nat) (A : Nat → Nat → α) : Prop :=
  ∀ i j, i < n → j < n → A i j = A j i

/-- The quadratic form `xᵗ A x` of the leading `n × n` block of `A`. -/
def quadN {α : Type} [Semiring α] (n : Nat) (A : Nat → Nat → α) (x : Nat → α) : α :=
  ∑ i in Finset.range n, ∑ j in Finset.range n, x i * A i j * x j

/-- The leading `n × n` block of `A` is positive-definite: `xᵗ A x > 0` for
every `x` with a non-zero entry among the first `n`. -/
def PosDefN {α : Type} [OrderedSemiring α] (n : Nat) (A : Nat → Nat → α) : Prop :=
  ∀ x : Nat → α, (∃ i, i < n ∧ x i ≠ 0) → 0 < quadN n A x

/-- The function `sqrt` is a square root on the positive elements. -/
def IsSqrt {α : Type} [OrderedSemiring α] (sqrt : α → α) : Prop :=
  ∀ x, 0 < x → 0 < sqrt x ∧ sqrt x * sqrt x = x

/-- A matrix of Mathlib as an Armadillo matrix. -/
def Mat.ofMatrix {α : Type} [Zero α] {m n : Nat} (M : Matrix (Fin m) (Fin n) α) : Mat α :=
  ⟨m, n, fun i j => if h : i < m ∧ j < n then M ⟨i, h.1⟩ ⟨j, h.2⟩ else 0⟩

/-- The leading `m × n` block of an Armadillo matrix as a matrix of Mathlib. -/
def Mat.toMatrix {α : Type} (M : Mat α) (m n : Nat) : Matrix (Fin m) (Fin n) α :=
  fun i j => M.elem i j

/-- The first `n` entries of a column as a function on `Fin n`. -/
def Vec.toFun {α : Type} [Zero α] (v : Vec α) (n : Nat) : Fin n → α := fun i => Vec.at v i

/-! ## Theorems -/

/-! ### Loading (lines 15-74) -/

theorem wrap_minus_one (P x : Nat) (hx : x < P) (h1 : 1 ≤ x) :
    (x + P - 1) % P = x - 1 := by
  have e : x + P - 1 = (x - 1) + P := by omega
  rw [e, Nat.add_mod_right, Nat.mod_eq_of_lt (by omega)]

theorem wrap_minus_plus_one (P x : Nat) (hx : x < P) :
    ((x + P - 1) % P + 1) % P = x := by
  rcases Nat.eq_zero_or_pos x with h0 | hpos
  · subst h0
    have e : (0 + P - 1) % P = P - 1 := by
      rw [Nat.zero_add]; exact Nat.mod_eq_of_lt (by omega)
    rw [e]
    have e2 : P - 1 + 1 = P := by omega
    rw [e2, Nat.mod_self]
  · rw [wrap_minus_one P x hx hpos]
    have e2 : x - 1 + 1 = x := by omega
    rw [e2, Nat.mod_eq_of_lt hx]

theorem getD_map_lt (f : Nat → Nat) (v : List Nat) (k : Nat) (hk : k < v.length) :
    (v.map f).getD k 0 = f (v.getD k 0) := by
  simp [List.getD_eq_getElem?_getD, hk]

theorem getD_mem_lt (v : List Nat) (k : Nat) (hk : k < v.length) : v.getD k 0 ∈ v := by
  rw [List.getD_eq_getElem?_getD, List.getElem?_eq_getElem hk]
  exact List.getElem_mem hk

theorem map_eq_self_of_pointwise (f : Nat → Nat) (v : List Nat) (h : ∀ x ∈ v, f x = x) :
    v.map f = v := by
  induction v with
  | nil => rfl
  | cons a t ih =>
    rw [List.map_cons, h a (List.mem_cons_self a t),
      ih (fun x hx => h x (List.mem_cons_of_mem a hx))]

theorem uvec_minus_one_zeroBased (v : UVec) (hr : UVec.inRange v) (h1 : UVec.oneBased v) :
    ZeroBasedOf (uvec_minus_one v) v := by
  refine ⟨List.length_map _ _, ?_⟩
  intro k hk
  have hmem := getD_mem_lt v k hk
  have hlt : v.getD k 0 < 2 ^ uword_bits := hr _ hmem
  have hge : 1 ≤ v.getD k 0 := h1 _ hmem
  have e : (uvec_minus_one v).getD k 0 = v.getD k 0 - 1 :=
    (getD_map_lt _ v k hk).trans (wrap_minus_one _ _ hlt hge)
  rw [e]
  exact Int.ofNat_sub hge

theorem uvec_plus_minus_one (v : UVec) (hr : UVec.inRange v) :
    uvec_plus_one (uvec_minus_one v) = v := by
  have e : uvec_plus_one (uvec_minus_one v) =
      v.map (fun x => ((x + 2 ^ uword_bits - 1) % 2 ^ uword_bits + 1) % 2 ^ uword_bits) :=
    List.map_map _ _ v
  rw [e]
  exact map_eq_self_of_pointwise _ v (fun x hx => wrap_minus_plus_one _ x (hr x hx))

/-- C4 (index conversion): for `uword`-valued index vectors, each of
`which_event`, `which_right`, `which_left`, `which_interval`, `idT`, `id_H`,
`id_h` whose entries are all at least 1 is loaded with the same length and
entry `k` equal to the input entry minus 1; `which_right_event` is the loaded
`which_event` followed by the loaded `which_right`; `id_H_fast` is
`create_fast_ind` of the original 1-based `id_H` (loaded `id_H` plus one is
the input). -/
theorem load_index_conversion {α ρ : Type} (env : Env α ρ) (md : ModelData α) (mi : ModelInfo)
    (hr : md.uwordIndices) :
    (UVec.oneBased md.which_event → ZeroBasedOf (load env md mi).which_event md.which_event) ∧
    (UVec.oneBased md.which_right → ZeroBasedOf (load env md mi).which_right md.which_right) ∧
    (UVec.oneBased md.which_left → ZeroBasedOf (load env md mi).which_left md.which_left) ∧
    (UVec.oneBased md.which_interval →
      ZeroBasedOf (load env md mi).which_interval md.which_interval) ∧
    (UVec.oneBased md.idT → ZeroBasedOf (load env md mi).idT md.idT) ∧
    (UVec.oneBased md.id_H → ZeroBasedOf (load env md mi).id_H md.id_H) ∧
    (UVec.oneBased md.id_h → ZeroBasedOf (load env md mi).id_h md.id_h) ∧
    (load env md mi).which_right_event =
      (load env md mi).which_event ++ (load env md mi).which_right ∧
    uvec_plus_one (load env md mi).id_H = md.id_H ∧
    (load env md mi).id_H_fast = env.create_fast_ind md.id_H := by
  obtain ⟨h1, h2, h3, h4, h5, h6, h7⟩ := hr
  refine ⟨uvec_minus_one_zeroBased _ h1, uvec_minus_one_zeroBased _ h2,
    uvec_minus_one_zeroBased _ h3, uvec_minus_one_zeroBased _ h4,
    uvec_minus_one_zeroBased _ h5, uvec_minus_one_zeroBased _ h6,
    uvec_minus_one_zeroBased _ h7, rfl, uvec_plus_minus_one _ h6, ?_⟩
  show env.create_fast_ind (uvec_plus_one (uvec_minus_one md.id_H)) = env.create_fast_ind md.id_H
  rw [uvec_plus_minus_one _ h6]

theorem md7_uwordIndices : md7.uwordIndices := by
  unfold ModelData.uwordIndices UVec.inRange
  decide!

/-- Witness of C4 on the model data `md7`: its index vectors are `uword`
valued and 1-based, and the loaded vectors are the shifted ones. -/
theorem load_index_conversion_witness :
    (UVec.oneBased md7.which_event ∧ UVec.oneBased md7.which_interval ∧
      UVec.oneBased md7.idT ∧ UVec.oneBased md7.id_H ∧ UVec.oneBased md7.id_h) ∧
    ZeroBasedOf (load refEnv md7 mi0).which_event md7.which_event ∧
    ZeroBasedOf (load refEnv md7 mi0).which_interval md7.which_interval ∧
    ZeroBasedOf (load refEnv md7 mi0).id_H md7.id_H ∧
    (load refEnv md7 mi0).id_H_fast = refEnv.create_fast_ind md7.id_H := by
  have h := load_index_conversion refEnv md7 mi0 md7_uwordIndices
  have o1 : UVec.oneBased md7.which_event := by unfold UVec.oneBased; decide!
  have o2 : UVec.oneBased md7.which_interval := by unfold UVec.oneBased; decide!
  have o3 : UVec.oneBased md7.idT := by unfold UVec.oneBased; decide!
  have o4 : UVec.oneBased md7.id_H := by unfold UVec.oneBased; decide!
  have o5 : UVec.oneBased md7.id_h := by unfold UVec.oneBased; decide!
  exact ⟨⟨o1, o2, o3, o4, o5⟩, h.1 o1, h.2.2.2.1 o2, h.2.2.2.2.2.1 o4, h.2.2.2.2.2.2.2.2.2⟩

/-- C10 (loading per context): on the model data `md0`, whose `_H` entries
have 2 rows (`id_H` has 2 elements) and whose `_h` entries have 1 row (`id_h`
has 1 element), the loaded `X_h` and `Z_h` are the conversion of the entry
`X_H` (2 rows each, not 1), and the loaded `delta` is the entry `Time_start`,
not the entry `delta`. -/
theorem load_X_h_Z_h_delta_mismatch :
    md0.id_H.length = 2 ∧ md0.id_h.length = 1 ∧
    (md0.X_H.map Mat.n_rows = [2] ∧ md0.Z_H.map Mat.n_rows = [2] ∧
      md0.U_H.map Mat.n_rows = [2]) ∧
    (md0.X_h.map Mat.n_rows = [1] ∧ md0.Z_h.map Mat.n_rows = [1] ∧
      md0.U_h.map Mat.n_rows = [1]) ∧
    (refEnv.List2Field_mat md0.X_h).map Mat.n_rows = [1] ∧
    (refEnv.List2Field_mat md0.Z_h).map Mat.n_rows = [1] ∧
    (load refEnv md0 mi0).X_h.map Mat.n_rows = [2] ∧
    (load refEnv md0 mi0).Z_h.map Mat.n_rows = [2] ∧
    (load refEnv md0 mi0).U_h.map Mat.n_rows = [1] ∧
    md0.delta = [1, 0] ∧ (load refEnv md0 mi0).delta = [0, 0] := by
  decide!

/-! ### Preliminaries (lines 132-162) -/

/-- C7 (`WH2_gammas`): with `any_gammas` and `any_interval`, two baseline
covariates (`md7`): `W_H · gammas`, `W_h · gammas` and `W_H2 · gammas = [11]`
are defined, but the preliminaries fail (line 152 multiplies the
`1 × 1`-column `WH2_gammas` by the 2-vector `gammas`), so `mcmc_cpp` returns
nothing.  With one baseline covariate (`md7a`): `W_H2 · gammas = [6]`, but the
cached `WH2_gammas` is the unassigned content (here 7) times `gammas[0]`,
i.e. `[14]`, while `WH_gammas` and `Wh_gammas` are the products. -/
theorem WH2_gammas_is_not_W_H2_times_gammas :
    (md7.any_gammas = true ∧ (load refEnv md7 mi0).any_interval = true ∧
      md7.W_H.mulVec iv7.gammas = some [1, 2] ∧ md7.W_h.mulVec iv7.gammas = some [1] ∧
      md7.W_H2.mulVec iv7.gammas = some [11] ∧
      (preliminaries (load refEnv md7 mi0) iv7.bs_gammas iv7.gammas iv7.alphas
        (Uninit.const 7)).isNone = true ∧
      (mcmc_cpp refEnv md7 mi0 iv7 pr7 c0 (Uninit.const 7) [2]).isNone = true) ∧
    (md7a.any_gammas = true ∧ (load refEnv md7a mi0).any_interval = true ∧
      md7a.W_H2.mulVec iv7a.gammas = some [6] ∧
      (preliminaries (load refEnv md7a mi0) iv7a.bs_gammas iv7a.gammas iv7a.alphas
        (Uninit.const 7)).map (fun lp => (lp.WH_gammas, lp.Wh_gammas, lp.WH2_gammas)) =
        some ([2, 2], [2], [14]) ∧
      (md7a.W_H.mulVec iv7a.gammas, md7a.W_h.mulVec iv7a.gammas) =
        (some [2, 2], some [2])) := by
  decide!

/-! ### The Gibbs step (lines 189-192) -/

/-- C9 (rate of the Gamma full conditional): with prior mean `[1]`, precision
`[[1]]`, `B = 1/2` and `bs_gammas = [1]` (priors `pr9`), the rate stated by
the specification is `1/2 + 1/2 · 0 = 1/2`, but `post_B_tau_bs_gammas` is
`1/2 + 1/2 · 1 = 1` (the prior mean is not subtracted); the generator is
called with shape `A + rank/2 = 3/2` and scale `1/1 = 1` instead of `2`. -/
theorem post_B_ignores_prior_mean :
    rate_tau_spec pr9.B_tau_bs_gammas iv0.bs_gammas pr9.mean_bs_gammas pr9.Tau_bs_gammas
      = 1 / 2 ∧
    (setup recEnv md0 mi0 iv0 pr9 c0 (Uninit.const 7) [2]).bind
      (fun p => post_B_tau_bs_gammas p.1 p.2.bs_gammas) = some 1 ∧
    (run_chain recEnv md0 mi0 iv0 pr9 c0 (Uninit.const 7) [2]).map
      (fun p => (p.2.bs_gammas, p.2.rng, p.2.tau_bs_gammas, p.2.res_tau_bs_gammas.elem 0 0)) =
      some ([1], [3 / 2, 1], 2, 2) := by
  decide!

/-- C8 (denominator after the Gibbs step): on `md0` with the rejecting
updaters, after `update_bs_gammas` the denominator equals the log-posterior
of the state (`-1`, under `tau_bs_gammas = 1`); the Gibbs step draws
`tau_bs_gammas = 2` and leaves the denominator at `-1`, while the
log-posterior of the state that now holds the new `tau_bs_gammas` is `-3/2`;
`phase_gammas` and `phase_alphas` hand over that stale denominator. -/
theorem denominator_stale_after_gibbs :
    (setup refEnv md0 mi0 iv0 pr0 c0 (Uninit.const 7) [2]).bind (fun p =>
      let t1 := phase_bs_gammas refEnv p.1 0 (phase_denominator refEnv p.1 p.2)
      (phase_tau refEnv p.1 0 t1).map (fun t2 =>
        (t1.chain.tau_bs_gammas, t1.denominator_surv, log_posterior refEnv p.1 t1.chain,
         t2.chain.tau_bs_gammas, t2.denominator_surv, log_posterior refEnv p.1 t2.chain))) =
      some (1, -1, -1, 2, -1, -3 / 2) := by
  decide!

/-! ### Unassigned buffers -/

/-- C2 (determinism, `any_gammas = false`): two runs of `mcmc_cpp` on the same
input bundle `md0, mi0, iv0, pr0, c0` and the same generator state return
different `W_bar_gammas` (`[7]` and `[8]`) when the memory behind the
unfilled buffers holds 7 in one run and 8 in the other; the cached
`WH_gammas` handed to `log_density_surv` and the updaters differs likewise. -/
theorem output_depends_on_unassigned_memory :
    md0.any_gammas = false ∧
    (mcmc_cpp refEnv md0 mi0 iv0 pr0 c0 (Uninit.const 7) [2]).map
      (fun o => o.mcmc.W_bar_gammas) = some [7] ∧
    (mcmc_cpp refEnv md0 mi0 iv0 pr0 c0 (Uninit.const 8) [2]).map
      (fun o => o.mcmc.W_bar_gammas) = some [8] ∧
    (setup refEnv md0 mi0 iv0 pr0 c0 (Uninit.const 7) [2]).map
      (fun p => p.2.lp.WH_gammas) = some [7, 7] ∧
    (setup refEnv md0 mi0 iv0 pr0 c0 (Uninit.const 8) [2]).map
      (fun p => p.2.lp.WH_gammas) = some [8, 8] := by
  decide!

/-- C3, counterexample: on `md0` (`any_gammas = false`, `gammas` of dimension
0) with one iteration and no burn-in, the returned `W_bar_gammas` has one
entry; it is not empty. -/
theorem W_bar_gammas_not_empty :
    md0.any_gammas = false ∧ iv0.gammas.length = 0 ∧
    (mcmc_cpp refEnv md0 mi0 iv0 pr0 c0 (Uninit.const 7) [2]).map
      (fun o => o.mcmc.W_bar_gammas.length) = some 1 := by
  decide!

/-! ### Trace buffers and the returned slices (lines 114-125, 163-249) -/

theorem emod_toNat_of_lt (x : Int) (P : Nat) (h0 : 0 ≤ x) (h : x < (P : Int)) :
    (x % (P : Int)).toNat = x.toNat := by
  rw [Int.emod_eq_of_lt h0 h]

theorem int_lt_uword (x : Int) (h : x < 2 ^ 31) : x < ((2 ^ uword_bits : Nat) : Int) := by
  have hp : (2 : Nat) ^ 31 ≤ 2 ^ uword_bits := Nat.pow_le_pow_right (by decide) (by decide)
  have hc : ((2 ^ 31 : Nat) : Int) ≤ ((2 ^ uword_bits : Nat) : Int) := Int.ofNat_le.mpr hp
  have e : ((2 ^ 31 : Nat) : Int) = 2 ^ 31 := by norm_num
  rw [e] at hc
  exact lt_of_lt_of_le h hc

theorem to_uword_of_int (x : Int) (h0 : 0 ≤ x) (h : x < 2 ^ 31) : to_uword x = x.toNat :=
  emod_toNat_of_lt x _ h0 (int_lt_uword x h)

theorem mat_rows_slice {α : Type} (M : Mat α) (b n : Int) (h0 : 0 ≤ b) (h1 : b < n)
    (h2 : n < 2 ^ 31) (hM : M.n_rows = n.toNat) :
    ∃ out, M.rows b (n - 1) = some out ∧ Mat.IsTrailingSlice out M b.toNat n.toNat := by
  have e1 : to_uword b = b.toNat := to_uword_of_int b h0 (by omega)
  have e2 : to_uword (n - 1) = (n - 1).toNat := to_uword_of_int (n - 1) (by omega) (by omega)
  have hc : ¬ (b.toNat > (n - 1).toNat ∨ (n - 1).toNat ≥ M.n_rows) := by
    rw [hM]; omega
  refine ⟨⟨(n - 1).toNat - b.toNat + 1, M.n_cols, fun i j => M.elem (b.toNat + i) j⟩, ?_, ?_⟩
  · unfold Mat.rows
    simp only [e1, e2]
    rw [if_neg hc]
  · refine ⟨hM, ?_, rfl, fun i j _ => rfl⟩
    show (n - 1).toNat - b.toNat + 1 = n.toNat - b.toNat
    omega

theorem vec_rows_slice {α : Type} (v : Vec α) (b n : Int) (h0 : 0 ≤ b) (h1 : b < n)
    (h2 : n < 2 ^ 31) (hv : v.length = n.toNat) :
    ∃ out, Vec.rows v b (n - 1) = some out ∧ Vec.IsTrailingSlice out v b.toNat n.toNat := by
  have e1 : to_uword b = b.toNat := to_uword_of_int b h0 (by omega)
  have e2 : to_uword (n - 1) = (n - 1).toNat := to_uword_of_int (n - 1) (by omega) (by omega)
  have hc : ¬ (b.toNat > (n - 1).toNat ∨ (n - 1).toNat ≥ v.length) := by
    rw [hv]; omega
  have hlen : (n - 1).toNat - b.toNat + 1 = n.toNat - b.toNat := by omega
  refine ⟨(v.drop b.toNat).take ((n - 1).toNat - b.toNat + 1), ?_, ?_⟩
  · unfold Vec.rows
    simp only [e1, e2]
    rw [if_neg hc]
  · refine ⟨hv, ?_, ?_⟩
    · rw [List.length_take, List.length_drop, hv, hlen]
      exact Nat.min_self _
    · intro i hi
      rw [hlen, List.get?_eq_getElem?, List.get?_eq_getElem?, List.getElem?_take_of_lt hi,
        List.getElem?_drop]

theorem setup_spec {α ρ : Type} [LinearOrderedField α] (env : Env α ρ) (md : ModelData α)
    (mi : ModelInfo) (iv : InitialValues α) (pr : Priors α) (c : Control) (u : Uninit α)
    (rng : ρ) (su : Setup α) (s0 : ChainState α ρ)
    (h : setup env md mi iv pr c u rng = some (su, s0)) :
    su.n_iter = c.n_iter ∧ su.n_burnin = c.n_burnin ∧ su.d = load env md mi ∧
    s0.TraceRows (to_uword c.n_iter) ∧
    s0.res_W_bar_gammas = Vec.uninit u.res_W_bar_gammas (to_uword c.n_iter) ∧
    chol env.sqrt (cov2cor env.sqrt iv.D) = some s0.L ∧
    s0.sds = Vec.sqrt env.sqrt iv.D.diag := by
  unfold setup at h
  simp only [bind, Option.bind_eq_some, pure, Option.some.injEq, Prod.mk.injEq] at h
  obtain ⟨L, hL, v, _, lp, _, hsu, hs⟩ := h
  subst hsu
  subst hs
  refine ⟨rfl, rfl, rfl, ⟨rfl, rfl, rfl, ?_, rfl, rfl, rfl, rfl, rfl, rfl, rfl, rfl⟩, rfl, hL, rfl⟩
  show (Vec.uninit u.res_W_bar_gammas (to_uword c.n_iter)).length = to_uword c.n_iter
  unfold Vec.uninit
  rw [List.length_map, List.length_range]

theorem phase_tau_spec {α ρ : Type} [Field α] (env : Env α ρ) (su : Setup α) (it : Int)
    (t t2 : IterState α ρ) (h : phase_tau env su it t = some t2) :
    ∃ post_B, post_B_tau_bs_gammas su t.chain.bs_gammas = some post_B ∧
      t2.denominator_surv = t.denominator_surv ∧
      t2.chain = { t.chain with
        tau_bs_gammas := (env.rgamma su.post_A_tau_bs_gammas (1 / post_B) t.chain.rng).1
        rng := (env.rgamma su.post_A_tau_bs_gammas (1 / post_B) t.chain.rng).2
        res_tau_bs_gammas := t.chain.res_tau_bs_gammas.set (to_uword it) 0
          (env.rgamma su.post_A_tau_bs_gammas (1 / post_B) t.chain.rng).1 } := by
  unfold phase_tau at h
  simp only [bind, Option.bind_eq_some, pure, Option.some.injEq] at h
  obtain ⟨post_B, hB, ht⟩ := h
  subst ht
  exact ⟨post_B, hB, rfl, rfl⟩

theorem phase_gammas_skip {α ρ : Type} [Field α] (env : Env α ρ) (su : Setup α) (it : Int)
    (t : IterState α ρ) (hg : su.d.any_gammas = false) :
    phase_gammas env su it t = some t := by
  unfold phase_gammas
  rw [hg]
  rfl

theorem phase_gammas_spec {α ρ : Type} [Field α] (env : Env α ρ) (su : Setup α) (it : Int)
    (t t2 : IterState α ρ) (hg : su.d.any_gammas = true)
    (h : phase_gammas env su it t = some t2) :
    ∃ w, t2.chain.res_W_bar_gammas = t.chain.res_W_bar_gammas.set (to_uword it) w ∧
      t2.chain.res_gammas = (env.update_gammas su.survData t.chain.tau_bs_gammas it su.d.W_H
        su.d.W_h su.d.W_H2
        { bs_gammas := t.chain.bs_gammas, gammas := t.chain.gammas, alphas := t.chain.alphas,
          lp := t.chain.lp, denominator_surv := t.denominator_surv,
          scale := t.chain.scale_gammas, acceptance := t.chain.acceptance_gammas,
          res := t.chain.res_gammas, rng := t.chain.rng }).res ∧
      t2.chain.acceptance_gammas = (env.update_gammas su.survData t.chain.tau_bs_gammas it
        su.d.W_H su.d.W_h su.d.W_H2
        { bs_gammas := t.chain.bs_gammas, gammas := t.chain.gammas, alphas := t.chain.alphas,
          lp := t.chain.lp, denominator_surv := t.denominator_surv,
          scale := t.chain.scale_gammas, acceptance := t.chain.acceptance_gammas,
          res := t.chain.res_gammas, rng := t.chain.rng }).acceptance ∧
      t2.chain.res_bs_gammas = t.chain.res_bs_gammas ∧
      t2.chain.acceptance_bs_gammas = t.chain.acceptance_bs_gammas ∧
      t2.chain.res_alphas = t.chain.res_alphas ∧
      t2.chain.acceptance_alphas = t.chain.acceptance_alphas ∧
      t2.chain.res_tau_bs_gammas = t.chain.res_tau_bs_gammas ∧
      t2.chain.res_sds = t.chain.res_sds ∧ t2.chain.acceptance_sds = t.chain.acceptance_sds ∧
      t2.chain.res_L = t.chain.res_L ∧ t2.chain.acceptance_L = t.chain.acceptance_L := by
  unfold phase_gammas at h
  rw [hg] at h
  simp only [if_true, bind, Option.bind_eq_some, pure, Option.some.injEq] at h
  obtain ⟨M, _, w, _, ht⟩ := h
  subst ht
  exact ⟨w, rfl, rfl, rfl, rfl, rfl, rfl, rfl, rfl, rfl, rfl, rfl, rfl⟩

theorem phase_gammas_traceRows {α ρ : Type} [Field α] (env : Env α ρ) (su : Setup α) (it : Int)
    (t t2 : IterState α ρ) (n : Nat) (hk : env.KeepsRows)
    (h : phase_gammas env su it t = some t2) (hr : t.chain.TraceRows n) :
    t2.chain.TraceRows n := by
  cases hg : su.d.any_gammas with
  | false =>
    rw [phase_gammas_skip env su it t hg] at h
    cases h
    exact hr
  | true =>
    obtain ⟨w, e1, e2, e3, e4, e5, e6, e7, e8, e9, e10, e11, e12⟩ :=
      phase_gammas_spec env su it t t2 hg h
    obtain ⟨r1, r2, r3, r4, r5, r6, r7, r8, r9, r10, r11, r12⟩ := hr
    have k := hk.2.1 su.survData t.chain.tau_bs_gammas it su.d.W_H su.d.W_h su.d.W_H2
      { bs_gammas := t.chain.bs_gammas, gammas := t.chain.gammas, alphas := t.chain.alphas,
        lp := t.chain.lp, denominator_surv := t.denominator_surv,
        scale := t.chain.scale_gammas, acceptance := t.chain.acceptance_gammas,
        res := t.chain.res_gammas, rng := t.chain.rng }
    refine ⟨?_, ?_, ?_, ?_, ?_, ?_, ?_, ?_, ?_, ?_, ?_, ?_⟩
    · rw [e4]; exact r1
    · rw [e5]; exact r2
    · rw [e2]; exact k.1.trans r3
    · rw [e1, List.length_set]; exact r4
    · rw [e3]; exact k.2.trans r5
    · rw [e6]; exact r6
    · rw [e7]; exact r7
    · rw [e8]; exact r8
    · rw [e9]; exact r9
    · rw [e10]; exact r10
    · rw [e11]; exact r11
    · rw [e12]; exact r12

theorem phase_denominator_traceRows {α ρ : Type} [Field α] (env : Env α ρ) (su : Setup α)
    (s : ChainState α ρ) (n : Nat) (hr : s.TraceRows n) :
    (phase_denominator env su s).chain.TraceRows n := hr

theorem phase_bs_gammas_traceRows {α ρ : Type} (env : Env α ρ) (su : Setup α) (it : Int)
    (t : IterState α ρ) (n : Nat) (hk : env.KeepsRows) (hr : t.chain.TraceRows n) :
    (phase_bs_gammas env su it t).chain.TraceRows n := by
  obtain ⟨r1, r2, r3, r4, r5, r6, r7, r8, r9, r10, r11, r12⟩ := hr
  have k := hk.1 su.survData t.chain.tau_bs_gammas it su.d.W0_H su.d.W0_h su.d.W0_H2
    { bs_gammas := t.chain.bs_gammas, gammas := t.chain.gammas, alphas := t.chain.alphas,
      lp := t.chain.lp, denominator_surv := t.denominator_surv,
      scale := t.chain.scale_bs_gammas, acceptance := t.chain.acceptance_bs_gammas,
      res := t.chain.res_bs_gammas, rng := t.chain.rng }
  exact ⟨k.1.trans r1, k.2.trans r2, r3, r4, r5, r6, r7, r8, r9, r10, r11, r12⟩

theorem phase_tau_traceRows {α ρ : Type} [Field α] (env : Env α ρ) (su : Setup α) (it : Int)
    (t t2 : IterState α ρ) (n : Nat) (h : phase_tau env su it t = some t2)
    (hr : t.chain.TraceRows n) : t2.chain.TraceRows n := by
  obtain ⟨post_B, _, _, hc⟩ := phase_tau_spec env su it t t2 h
  rw [hc]
  exact hr

theorem phase_alphas_traceRows {α ρ : Type} (env : Env α ρ) (su : Setup α) (it : Int)
    (t : IterState α ρ) (n : Nat) (hk : env.KeepsRows) (hr : t.chain.TraceRows n) :
    (phase_alphas env su it t).chain.TraceRows n := by
  obtain ⟨r1, r2, r3, r4, r5, r6, r7, r8, r9, r10, r11, r12⟩ := hr
  have k := hk.2.2.1 su.survData t.chain.tau_bs_gammas it su.d.Wlong_H su.d.Wlong_h
    su.d.Wlong_H2
    { bs_gammas := t.chain.bs_gammas, gammas := t.chain.gammas, alphas := t.chain.alphas,
      lp := t.chain.lp, denominator_surv := t.denominator_surv,
      scale := t.chain.scale_alphas, acceptance := t.chain.acceptance_alphas,
      res := t.chain.res_alphas, rng := t.chain.rng }
  exact ⟨r1, r2, r3, r4, r5, k.1.trans r6, k.2.trans r7, r8, r9, r10, r11, r12⟩

theorem phase_D_traceRows {α ρ : Type} (env : Env α ρ) (su : Setup α) (it : Int)
    (t : IterState α ρ) (n : Nat) (hk : env.KeepsRows) (hr : t.chain.TraceRows n) :
    (phase_D env su it t).TraceRows n := by
  obtain ⟨r1, r2, r3, r4, r5, r6, r7, r8, r9, r10, r11, r12⟩ := hr
  have k := hk.2.2.2 su.b_mat su.upper_part su.prior_D_sds_df su.prior_D_sds_sigma
    su.prior_D_L_etaLKJ it su.MALA
    { L := t.chain.L, sds := t.chain.sds, res_sds := t.chain.res_sds, res_L := t.chain.res_L,
      scale_sds := t.chain.scale_sds, scale_L := t.chain.scale_L,
      acceptance_sds := t.chain.acceptance_sds, acceptance_L := t.chain.acceptance_L,
      rng := t.chain.rng }
  exact ⟨r1, r2, r3, r4, r5, r6, r7, r8, k.1.trans r9, k.2.2.1.trans r10, k.2.1.trans r11,
    k.2.2.2.trans r12⟩

theorem iteration_spec {α ρ : Type} [Field α] (env : Env α ρ) (su : Setup α) (it : Int)
    (s s2 : ChainState α ρ) (h : iteration env su it s = some s2) :
    ∃ t2 t3, phase_tau env su it (phase_bs_gammas env su it (phase_denominator env su s))
        = some t2 ∧
      phase_gammas env su it t2 = some t3 ∧
      s2 = phase_D env su it (phase_alphas env su it t3) := by
  unfold iteration at h
  simp only [bind, Option.bind_eq_some, pure, Option.some.injEq] at h
  obtain ⟨t2, h2, t3, h3, e⟩ := h
  exact ⟨t2, t3, h2, h3, e.symm⟩

theorem iteration_traceRows {α ρ : Type} [Field α] (env : Env α ρ) (su : Setup α) (it : Int)
    (s s2 : ChainState α ρ) (n : Nat) (hk : env.KeepsRows)
    (h : iteration env su it s = some s2) (hr : s.TraceRows n) : s2.TraceRows n := by
  obtain ⟨t2, t3, h2, h3, e⟩ := iteration_spec env su it s s2 h
  rw [e]
  apply phase_D_traceRows env su it _ n hk
  apply phase_alphas_traceRows env su it _ n hk
  apply phase_gammas_traceRows env su it t2 t3 n hk h3
  apply phase_tau_traceRows env su it _ t2 n h2
  apply phase_bs_gammas_traceRows env su it _ n hk
  exact phase_denominator_traceRows env su s n hr

theorem loop_traceRows {α ρ : Type} [Field α] (env : Env α ρ) (su : Setup α) (n : Nat)
    (hk : env.KeepsRows) (k : Nat) :
    ∀ (s s2 : ChainState α ρ), loop env su k s = some s2 → s.TraceRows n → s2.TraceRows n := by
  induction k with
  | zero =>
    intro s s2 h hr
    cases h
    exact hr
  | succ k ih =>
    intro s s2 h hr
    unfold loop at h
    rw [Option.bind_eq_some] at h
    obtain ⟨s1, h1, hit⟩ := h
    exact iteration_traceRows env su k s1 s2 n hk hit (ih s s1 h1 hr)

theorem finalize_spec {α ρ : Type} (su : Setup α) (s : ChainState α ρ)
    (h0 : 0 ≤ su.n_burnin) (h1 : su.n_burnin < su.n_iter) (h2 : su.n_iter < 2 ^ 31)
    (hr : s.TraceRows su.n_iter.toNat) :
    ∃ out, finalize su s = some out ∧
      Mat.IsTrailingSlice out.mcmc.bs_gammas s.res_bs_gammas su.n_burnin.toNat su.n_iter.toNat ∧
      Mat.IsTrailingSlice out.mcmc.tau_bs_gammas s.res_tau_bs_gammas su.n_burnin.toNat
        su.n_iter.toNat ∧
      Mat.IsTrailingSlice out.mcmc.gammas s.res_gammas su.n_burnin.toNat su.n_iter.toNat ∧
      Vec.IsTrailingSlice out.mcmc.W_bar_gammas s.res_W_bar_gammas su.n_burnin.toNat
        su.n_iter.toNat ∧
      Mat.IsTrailingSlice out.mcmc.alphas s.res_alphas su.n_burnin.toNat su.n_iter.toNat ∧
      Mat.IsTrailingSlice out.mcmc.sds s.res_sds su.n_burnin.toNat su.n_iter.toNat ∧
      Mat.IsTrailingSlice out.mcmc.L s.res_L su.n_burnin.toNat su.n_iter.toNat ∧
      Mat.IsTrailingSlice out.acc_rate.bs_gammas s.acceptance_bs_gammas su.n_burnin.toNat
        su.n_iter.toNat ∧
      Mat.IsTrailingSlice out.acc_rate.gammas s.acceptance_gammas su.n_burnin.toNat
        su.n_iter.toNat ∧
      Mat.IsTrailingSlice out.acc_rate.alphas s.acceptance_alphas su.n_burnin.toNat
        su.n_iter.toNat ∧
      Mat.IsTrailingSlice out.acc_rate.sds s.acceptance_sds su.n_burnin.toNat su.n_iter.toNat ∧
      Mat.IsTrailingSlice out.acc_rate.L s.acceptance_L su.n_burnin.toNat su.n_iter.toNat := by
  obtain ⟨r1, r2, r3, r4, r5, r6, r7, r8, r9, r10, r11, r12⟩ := hr
  obtain ⟨o1, e1, p1⟩ := mat_rows_slice s.res_bs_gammas _ _ h0 h1 h2 r1
  obtain ⟨o2, e2, p2⟩ := mat_rows_slice s.acceptance_bs_gammas _ _ h0 h1 h2 r2
  obtain ⟨o3, e3, p3⟩ := mat_rows_slice s.res_gammas _ _ h0 h1 h2 r3
  obtain ⟨o4, e4, p4⟩ := vec_rows_slice s.res_W_bar_gammas _ _ h0 h1 h2 r4
  obtain ⟨o5, e5, p5⟩ := mat_rows_slice s.acceptance_gammas _ _ h0 h1 h2 r5
  obtain ⟨o6, e6, p6⟩ := mat_rows_slice s.res_alphas _ _ h0 h1 h2 r6
  obtain ⟨o7, e7, p7⟩ := mat_rows_slice s.acceptance_alphas _ _ h0 h1 h2 r7
  obtain ⟨o8, e8, p8⟩ := mat_rows_slice s.res_tau_bs_gammas _ _ h0 h1 h2 r8
  obtain ⟨o9, e9, p9⟩ := mat_rows_slice s.res_sds _ _ h0 h1 h2 r9
  obtain ⟨o10, e10, p10⟩ := mat_rows_slice s.acceptance_sds _ _ h0 h1 h2 r10
  obtain ⟨o11, e11, p11⟩ := mat_rows_slice s.res_L _ _ h0 h1 h2 r11
  obtain ⟨o12, e12, p12⟩ := mat_rows_slice s.acceptance_L _ _ h0 h1 h2 r12
  refine ⟨{ mcmc := { bs_gammas := o1, tau_bs_gammas := o8, gammas := o3, W_bar_gammas := o4,
                       alphas := o6, sds := o9, L := o11 },
            acc_rate := { bs_gammas := o2, gammas := o5, alphas := o7, sds := o10, L := o12 } },
    ?_, p1, p8, p3, p4, p6, p9, p11, p2, p5, p7, p10, p12⟩
  unfold finalize
  simp only [e1, e2, e3, e4, e5, e6, e7, e8, e9, e10, e11, e12, bind, Option.bind, pure]

theorem run_chain_spec {α ρ : Type} [LinearOrderedField α] (env : Env α ρ) (md : ModelData α)
    (mi : ModelInfo) (iv : InitialValues α) (pr : Priors α) (c : Control) (u : Uninit α)
    (rng : ρ) (su : Setup α) (s : ChainState α ρ)
    (h : run_chain env md mi iv pr c u rng = some (su, s)) :
    ∃ s0, setup env md mi iv pr c u rng = some (su, s0) ∧
      loop env su su.n_iter.toNat s0 = some s := by
  unfold run_chain at h
  simp only [bind, Option.bind_eq_some, pure, Option.some.injEq, Prod.mk.injEq] at h
  obtain ⟨⟨su1, s0⟩, hs, s1, hl, e1, e2⟩ := h
  subst e1
  subst e2
  exact ⟨s0, hs, hl⟩

theorem mcmc_cpp_eq_finalize {α ρ : Type} [LinearOrderedField α] (env : Env α ρ)
    (md : ModelData α) (mi : ModelInfo) (iv : InitialValues α) (pr : Priors α) (c : Control)
    (u : Uninit α) (rng : ρ) (su : Setup α) (s : ChainState α ρ)
    (h : run_chain env md mi iv pr c u rng = some (su, s)) :
    mcmc_cpp env md mi iv pr c u rng = finalize su s := by
  unfold mcmc_cpp
  rw [h]
  rfl

/-- C1 (burn-in slice): when the updaters keep the row count of the buffers
they write into, `0 ≤ n_burnin < n_iter` (an `int`) and the loop has ended
with trace buffers `s`, then `mcmc_cpp` returns, and each of the 7 `mcmc`
entries and the 5 `acc_rate` entries has `n_iter - n_burnin` rows, row `i`
being row `n_burnin + i` of the corresponding `n_iter`-row buffer. -/
theorem mcmc_cpp_returns_trailing_slices {α ρ : Type} [LinearOrderedField α] (env : Env α ρ)
    (md : ModelData α) (mi : ModelInfo) (iv : InitialValues α) (pr : Priors α) (c : Control)
    (u : Uninit α) (rng : ρ) (su : Setup α) (s : ChainState α ρ)
    (hk : env.KeepsRows) (h0 : 0 ≤ c.n_burnin) (h1 : c.n_burnin < c.n_iter)
    (h2 : c.n_iter < 2 ^ 31)
    (hrun : run_chain env md mi iv pr c u rng = some (su, s)) :
    ∃ out, mcmc_cpp env md mi iv pr c u rng = some out ∧
      Mat.IsTrailingSlice out.mcmc.bs_gammas s.res_bs_gammas c.n_burnin.toNat c.n_iter.toNat ∧
      Mat.IsTrailingSlice out.mcmc.tau_bs_gammas s.res_tau_bs_gammas c.n_burnin.toNat
        c.n_iter.toNat ∧
      Mat.IsTrailingSlice out.mcmc.gammas s.res_gammas c.n_burnin.toNat c.n_iter.toNat ∧
      Vec.IsTrailingSlice out.mcmc.W_bar_gammas s.res_W_bar_gammas c.n_burnin.toNat
        c.n_iter.toNat ∧
      Mat.IsTrailingSlice out.mcmc.alphas s.res_alphas c.n_burnin.toNat c.n_iter.toNat ∧
      Mat.IsTrailingSlice out.mcmc.sds s.res_sds c.n_burnin.toNat c.n_iter.toNat ∧
      Mat.IsTrailingSlice out.mcmc.L s.res_L c.n_burnin.toNat c.n_iter.toNat ∧
      Mat.IsTrailingSlice out.acc_rate.bs_gammas s.acceptance_bs_gammas c.n_burnin.toNat
        c.n_iter.toNat ∧
      Mat.IsTrailingSlice out.acc_rate.gammas s.acceptance_gammas c.n_burnin.toNat
        c.n_iter.toNat ∧
      Mat.IsTrailingSlice out.acc_rate.alphas s.acceptance_alphas c.n_burnin.toNat
        c.n_iter.toNat ∧
      Mat.IsTrailingSlice out.acc_rate.sds s.acceptance_sds c.n_burnin.toNat c.n_iter.toNat ∧
      Mat.IsTrailingSlice out.acc_rate.L s.acceptance_L c.n_burnin.toNat c.n_iter.toNat := by
  obtain ⟨s0, hs, hl⟩ := run_chain_spec env md mi iv pr c u rng su s hrun
  obtain ⟨en, eb, _, hr0, _⟩ := setup_spec env md mi iv pr c u rng su s0 hs
  rw [to_uword_of_int c.n_iter (by omega) h2] at hr0
  have hr : s.TraceRows c.n_iter.toNat :=
    loop_traceRows env su c.n_iter.toNat hk su.n_iter.toNat s0 s hl hr0
  rw [mcmc_cpp_eq_finalize env md mi iv pr c u rng su s hrun]
  rw [← en, ← eb]
  rw [← en] at hr h1 h2
  rw [← eb] at h0 h1
  exact finalize_spec su s h0 h1 h2 hr

theorem refEnv_keepsRows : refEnv.KeepsRows :=
  ⟨fun _ _ _ _ _ _ _ => ⟨rfl, rfl⟩, fun _ _ _ _ _ _ _ => ⟨rfl, rfl⟩,
    fun _ _ _ _ _ _ _ => ⟨rfl, rfl⟩, fun _ _ _ _ _ _ _ _ => ⟨rfl, rfl, rfl, rfl⟩⟩

/-- Witness of C1: the reference environment on `md1` (one baseline
covariate, no interval-censored record) run for 3 iterations with 1 burn-in
iteration returns 2 rows per entry, the trailing rows of the buffers. -/
theorem mcmc_cpp_returns_trailing_slices_witness :
    ∃ su s out,
      run_chain refEnv md1 mi0 iv7a pr7a c1 (Uninit.const 7)
        [2, 3, 4] = some (su, s) ∧
      mcmc_cpp refEnv md1 mi0 iv7a pr7a c1 (Uninit.const 7)
        [2, 3, 4] = some out ∧
      Mat.IsTrailingSlice out.mcmc.tau_bs_gammas s.res_tau_bs_gammas 1 3 ∧
      Vec.IsTrailingSlice out.mcmc.W_bar_gammas s.res_W_bar_gammas 1 3 ∧
      Mat.IsTrailingSlice out.acc_rate.L s.acceptance_L 1 3 := by
  have hsome : (run_chain refEnv md1 mi0 iv7a pr7a c1
      (Uninit.const 7) [2, 3, 4]).isSome = true := by decide!
  obtain ⟨⟨su, s⟩, hrun⟩ := Option.isSome_iff_exists.mp hsome
  obtain ⟨out, hout, _, p2, _, p4, _, _, _, _, _, _, _, p12⟩ :=
    mcmc_cpp_returns_trailing_slices refEnv md1 mi0 iv7a pr7a c1
      (Uninit.const 7) [2, 3, 4] su s refEnv_keepsRows (by decide) (by decide) (by decide) hrun
  exact ⟨su, s, out, hrun, hout, p2, p4, p12⟩

/-! ### The guarded `gammas` step (lines 194-210) -/

theorem iteration_W_bar_unchanged {α ρ : Type} [Field α] (env : Env α ρ) (su : Setup α)
    (it : Int) (s s2 : ChainState α ρ) (hg : su.d.any_gammas = false)
    (h : iteration env su it s = some s2) :
    s2.res_W_bar_gammas = s.res_W_bar_gammas := by
  obtain ⟨t2, t3, h2, h3, e⟩ := iteration_spec env su it s s2 h
  rw [phase_gammas_skip env su it t2 hg] at h3
  cases h3
  obtain ⟨post_B, _, _, hc⟩ := phase_tau_spec env su it _ t2 h2
  rw [e]
  show t2.chain.res_W_bar_gammas = s.res_W_bar_gammas
  rw [hc]
  rfl

theorem loop_W_bar_unchanged {α ρ : Type} [Field α] (env : Env α ρ) (su : Setup α)
    (hg : su.d.any_gammas = false) (k : Nat) :
    ∀ (s s2 : ChainState α ρ), loop env su k s = some s2 →
      s2.res_W_bar_gammas = s.res_W_bar_gammas := by
  induction k with
  | zero =>
    intro s s2 h
    cases h
    rfl
  | succ k ih =>
    intro s s2 h
    unfold loop at h
    rw [Option.bind_eq_some] at h
    obtain ⟨s1, h1, hit⟩ := h
    rw [iteration_W_bar_unchanged env su k s1 s2 hg hit]
    exact ih s s1 h1

theorem finalize_W_bar {α ρ : Type} (su : Setup α) (s : ChainState α ρ) (out : Output α)
    (h : finalize su s = some out) :
    Vec.rows s.res_W_bar_gammas su.n_burnin (su.n_iter - 1) = some out.mcmc.W_bar_gammas := by
  unfold finalize at h
  simp only [bind, Option.bind_eq_some, pure, Option.some.injEq] at h
  obtain ⟨o1, _, o2, _, o3, _, o4, e4, o5, _, o6, _, o7, _, o8, _, o9, _, o10, _, o11, _,
    o12, _, heq⟩ := h
  subst heq
  exact e4

/-- C3, amended: when `any_gammas` is false, the `gammas` step of every
iteration returns the state it was given (no call of `update_gammas`; `gammas`,
`scale_gammas`, `acceptance_gammas` and the caches are unchanged), no
iteration writes `res_W_bar_gammas`, and for `0 ≤ n_burnin < n_iter` the
returned `W_bar_gammas` has `n_iter - n_burnin` entries (it is not empty). -/
theorem gammas_step_skipped {α ρ : Type} [LinearOrderedField α] (env : Env α ρ)
    (md : ModelData α) (mi : ModelInfo) (iv : InitialValues α) (pr : Priors α) (c : Control)
    (u : Uninit α) (rng : ρ) (su : Setup α) (s0 s : ChainState α ρ) (out : Output α)
    (hg : md.any_gammas = false) (h0 : 0 ≤ c.n_burnin) (h1 : c.n_burnin < c.n_iter)
    (h2 : c.n_iter < 2 ^ 31)
    (hsetup : setup env md mi iv pr c u rng = some (su, s0))
    (hrun : run_chain env md mi iv pr c u rng = some (su, s))
    (hout : mcmc_cpp env md mi iv pr c u rng = some out) :
    (∀ (it : Int) (t : IterState α ρ), phase_gammas env su it t = some t) ∧
    s.res_W_bar_gammas = s0.res_W_bar_gammas ∧
    out.mcmc.W_bar_gammas.length = c.n_iter.toNat - c.n_burnin.toNat ∧
    out.mcmc.W_bar_gammas ≠ [] := by
  obtain ⟨en, eb, ed, hr0, _⟩ := setup_spec env md mi iv pr c u rng su s0 hsetup
  have hg2 : su.d.any_gammas = false := by rw [ed]; exact hg
  obtain ⟨s0b, hs, hl⟩ := run_chain_spec env md mi iv pr c u rng su s hrun
  rw [hsetup] at hs
  cases hs
  have hW : s.res_W_bar_gammas = s0.res_W_bar_gammas :=
    loop_W_bar_unchanged env su hg2 _ s0 s hl
  rw [mcmc_cpp_eq_finalize env md mi iv pr c u rng su s hrun] at hout
  have hrows := finalize_W_bar su s out hout
  rw [en, eb] at hrows
  have hlen : s.res_W_bar_gammas.length = c.n_iter.toNat := by
    rw [hW, hr0.2.2.2.1]
    exact to_uword_of_int c.n_iter (by omega) h2
  obtain ⟨o, e, p⟩ := vec_rows_slice s.res_W_bar_gammas c.n_burnin c.n_iter h0 h1 h2 hlen
  rw [e] at hrows
  cases hrows
  refine ⟨fun it t => phase_gammas_skip env su it t hg2, hW, p.2.1, ?_⟩
  intro hnil
  have := p.2.1
  rw [hnil] at this
  simp only [List.length_nil] at this
  omega

/-- Witness of C3, amended: the reference environment on `md0`
(`any_gammas = false`) with 3 iterations and 1 burn-in iteration. -/
theorem gammas_step_skipped_witness :
    md0.any_gammas = false ∧
    ∃ su s0 s out,
      setup refEnv md0 mi0 iv0 pr0 c1 (Uninit.const 7) [2, 3, 4] = some (su, s0) ∧
      run_chain refEnv md0 mi0 iv0 pr0 c1 (Uninit.const 7) [2, 3, 4] = some (su, s) ∧
      mcmc_cpp refEnv md0 mi0 iv0 pr0 c1 (Uninit.const 7) [2, 3, 4] = some out ∧
      s.res_W_bar_gammas = s0.res_W_bar_gammas ∧
      out.mcmc.W_bar_gammas.length = 2 := by
  have h1 : (run_chain refEnv md0 mi0 iv0 pr0 c1 (Uninit.const 7) [2, 3, 4]).isSome = true := by
    decide!
  have h2 : (mcmc_cpp refEnv md0 mi0 iv0 pr0 c1 (Uninit.const 7) [2, 3, 4]).isSome = true := by
    decide!
  obtain ⟨⟨su, s⟩, hrun⟩ := Option.isSome_iff_exists.mp h1
  obtain ⟨out, hout⟩ := Option.isSome_iff_exists.mp h2
  obtain ⟨s0, hs, _⟩ := run_chain_spec refEnv md0 mi0 iv0 pr0 c1 (Uninit.const 7) [2, 3, 4] su s hrun
  have h := gammas_step_skipped refEnv md0 mi0 iv0 pr0 c1 (Uninit.const 7) [2, 3, 4] su s0 s out
    rfl (by decide) (by decide) (by decide) hs hrun hout
  exact ⟨rfl, su, s0, s, out, hs, hrun, hout, h.2.1, h.2.2.1⟩

/-! ### The initial covariance decomposition (lines 83-86) -/

section Cholesky

variable {α : Type} [LinearOrderedField α]

theorem quadN_succ (n : Nat) (A : Nat → Nat → α) (x : Nat → α) :
    quadN (n + 1) A x =
      quadN n (fun i j => A (i + 1) (j + 1)) (fun i => x (i + 1)) +
      (∑ i in Finset.range n, x (i + 1) * A (i + 1) 0) * x 0 +
      x 0 * (∑ j in Finset.range n, A 0 (j + 1) * x (j + 1)) +
      x 0 * A 0 0 * x 0 := by
  unfold quadN
  rw [Finset.sum_range_succ']
  have h1 : ∀ i, ∑ j in Finset.range (n + 1), x i * A i j * x j =
      ∑ j in Finset.range n, x i * A i (j + 1) * x (j + 1) + x i * A i 0 * x 0 :=
    fun i => Finset.sum_range_succ' _ n
  simp only [h1]
  rw [Finset.sum_add_distrib, Finset.sum_mul, Finset.mul_sum]
  have h2 : ∀ j, x 0 * (A 0 (j + 1) * x (j + 1)) = x 0 * A 0 (j + 1) * x (j + 1) :=
    fun j => (mul_assoc _ _ _).symm
  simp only [h2]
  ring

theorem posDefN_diag_pos (n : Nat) (A : Nat → Nat → α) (h : PosDefN n A) (k : Nat)
    (hk : k < n) : 0 < A k k := by
  have hx := h (fun i => if i = k then 1 else 0) ⟨k, hk, by simp⟩
  unfold quadN at hx
  have e : ∑ i in Finset.range n, ∑ j in Finset.range n,
      (if i = k then (1 : α) else 0) * A i j * (if j = k then (1 : α) else 0) = A k k := by
    rw [Finset.sum_eq_single k]
    · rw [Finset.sum_eq_single k]
      · simp
      · intro j _ hj; simp [hj]
      · intro hn; exact absurd (Finset.mem_range.mpr hk) hn
    · intro i _ hi; simp [hi]
    · intro hn; exact absurd (Finset.mem_range.mpr hk) hn
  rw [e] at hx
  exact hx

theorem quadN_schur (n : Nat) (A : Nat → Nat → α) (c : α) (hc : c ≠ 0) (y : Nat → α) :
    quadN n (fun i j => A (i + 1) (j + 1) - (A 0 (i + 1) / c) * (A 0 (j + 1) / c)) y =
      quadN n (fun i j => A (i + 1) (j + 1)) y -
      (∑ j in Finset.range n, A 0 (j + 1) * y j) * (∑ j in Finset.range n, A 0 (j + 1) * y j)
        / (c * c) := by
  unfold quadN
  rw [Finset.sum_mul_sum, Finset.sum_div, ← Finset.sum_sub_distrib]
  apply Finset.sum_congr rfl
  intro i _
  rw [Finset.sum_div, ← Finset.sum_sub_distrib]
  apply Finset.sum_congr rfl
  intro j _
  field_simp
  ring

theorem schur_posDefN (n : Nat) (A : Nat → Nat → α) (c : α) (hcc : c * c = A 0 0)
    (hs : SymN (n + 1) A) (hp : PosDefN (n + 1) A) :
    PosDefN n (fun i j => A (i + 1) (j + 1) - (A 0 (i + 1) / c) * (A 0 (j + 1) / c)) := by
  intro y hy
  have ha : 0 < A 0 0 := posDefN_diag_pos (n + 1) A hp 0 (Nat.succ_pos n)
  have hc : c ≠ 0 := by
    intro h0
    rw [h0, mul_zero] at hcc
    exact absurd hcc.symm (ne_of_gt ha)
  obtain ⟨i0, hi0, hyi0⟩ := hy
  let s : α := ∑ j in Finset.range n, A 0 (j + 1) * y j
  let x : Nat → α := fun k => if k = 0 then -s / A 0 0 else y (k - 1)
  have hx0 : x 0 = -s / A 0 0 := by simp [x]
  have hxs : ∀ i, x (i + 1) = y i := fun i => by simp [x]
  have hpos := hp x ⟨i0 + 1, Nat.succ_lt_succ hi0, by rw [hxs]; exact hyi0⟩
  rw [quadN_succ] at hpos
  simp only [hxs] at hpos
  have hsym : ∑ i in Finset.range n, y i * A (i + 1) 0 = s := by
    apply Finset.sum_congr rfl
    intro i hi
    have hi2 : i < n := Finset.mem_range.mp hi
    rw [hs (i + 1) 0 (Nat.succ_lt_succ hi2) (Nat.succ_pos n), mul_comm]
  rw [hsym, hx0] at hpos
  rw [quadN_schur n A c hc y, hcc]
  have e : quadN n (fun i j => A (i + 1) (j + 1)) y + s * (-s / A 0 0) + -s / A 0 0 * s +
      -s / A 0 0 * A 0 0 * (-s / A 0 0) =
      quadN n (fun i j => A (i + 1) (j + 1)) y - s * s / A 0 0 := by
    field_simp
    ring
  rw [e] at hpos
  exact hpos

theorem schur_symN (n : Nat) (A : Nat → Nat → α) (c : α) (hs : SymN (n + 1) A) :
    SymN n (fun i j => A (i + 1) (j + 1) - (A 0 (i + 1) / c) * (A 0 (j + 1) / c)) := by
  intro i j hi hj
  show A (i + 1) (j + 1) - (A 0 (i + 1) / c) * (A 0 (j + 1) / c) =
    A (j + 1) (i + 1) - (A 0 (j + 1) / c) * (A 0 (i + 1) / c)
  rw [hs (i + 1) (j + 1) (Nat.succ_lt_succ hi) (Nat.succ_lt_succ hj), mul_comm]

theorem cholU_spec (sqrt : α → α) (hsq : IsSqrt sqrt) :
    ∀ (n : Nat) (A : Nat → Nat → α), SymN n A → PosDefN n A →
      ∃ U, cholU sqrt n A = some U ∧ (∀ i j, j < i → U i j = 0) ∧
        (∀ i, i < n → 0 < U i i) ∧
        (∀ i j, i < n → j < n → ∑ k in Finset.range n, U k i * U k j = A i j) := by
  intro n
  induction n with
  | zero =>
    intro A _ _
    exact ⟨fun _ _ => 0, rfl, fun _ _ _ => rfl, fun i hi => absurd hi (Nat.not_lt_zero i),
      fun i j hi _ => absurd hi (Nat.not_lt_zero i)⟩
  | succ n ih =>
    intro A hs hp
    have ha : 0 < A 0 0 := posDefN_diag_pos (n + 1) A hp 0 (Nat.succ_pos n)
    obtain ⟨hd0, hdd⟩ := hsq (A 0 0) ha
    have hdne : sqrt (A 0 0) ≠ 0 := ne_of_gt hd0
    obtain ⟨U, hU, hlow, hdiag, hprod⟩ := ih _ (schur_symN n A (sqrt (A 0 0)) hs)
      (schur_posDefN n A (sqrt (A 0 0)) hdd hs hp)
    refine ⟨fun i j =>
        match i, j with
        | 0, 0 => sqrt (A 0 0)
        | 0, j + 1 => A 0 (j + 1) / sqrt (A 0 0)
        | _ + 1, 0 => 0
        | i + 1, j + 1 => U i j, ?_, ?_, ?_, ?_⟩
    · unfold cholU
      rw [if_pos ha]
      simp only [hU]
      try rfl
    · intro i j hji
      cases i with
      | zero => exact absurd hji (Nat.not_lt_zero j)
      | succ i =>
        cases j with
        | zero => rfl
        | succ j => exact hlow i j (Nat.lt_of_succ_lt_succ hji)
    · intro i hi
      cases i with
      | zero => exact hd0
      | succ i => exact hdiag i (Nat.lt_of_succ_lt_succ hi)
    · intro i j hi hj
      rw [Finset.sum_range_succ']
      cases i with
      | zero =>
        cases j with
        | zero =>
          simp only [mul_zero, Finset.sum_const_zero, zero_add]
          exact hdd
        | succ j =>
          simp only [zero_mul, Finset.sum_const_zero, zero_add]
          field_simp
      | succ i =>
        cases j with
        | zero =>
          simp only [mul_zero, Finset.sum_const_zero, zero_add]
          rw [hs (i + 1) 0 hi hj]
          field_simp
        | succ j =>
          simp only []
          rw [hprod i j (Nat.lt_of_succ_lt_succ hi) (Nat.lt_of_succ_lt_succ hj)]
          ring

theorem chol_spec (sqrt : α → α) (hsq : IsSqrt sqrt) (X : Mat α) (hsquare : X.n_rows = X.n_cols)
    (hs : SymN X.n_rows X.elem) (hp : PosDefN X.n_rows X.elem) :
    ∃ L, chol sqrt X = some L ∧ L.n_rows = X.n_rows ∧ L.n_cols = X.n_cols ∧
      (∀ i j, j < i → L.elem i j = 0) ∧ (∀ i, i < X.n_rows → 0 < L.elem i i) ∧
      (∀ i j, i < X.n_rows → j < X.n_rows →
        ∑ k in Finset.range X.n_rows, L.elem k i * L.elem k j = X.elem i j) := by
  obtain ⟨U, hU, hlow, hdiag, hprod⟩ := cholU_spec sqrt hsq X.n_rows X.elem hs hp
  refine ⟨⟨X.n_rows, X.n_cols, U⟩, ?_, rfl, rfl, hlow, hdiag, hprod⟩
  unfold chol
  rw [if_pos hsquare, hU]
  rfl

theorem cov2cor_symN (sqrt : α → α) (D : Mat α) (n : Nat) (hs : SymN n D.elem) :
    SymN n (cov2cor sqrt D).elem := by
  intro i j hi hj
  show D.elem i j * (1 / sqrt (D.elem i i)) * (1 / sqrt (D.elem j j)) =
    D.elem j i * (1 / sqrt (D.elem j j)) * (1 / sqrt (D.elem i i))
  rw [hs i j hi hj]
  ring

theorem cov2cor_posDefN (sqrt : α → α) (hsq : IsSqrt sqrt) (D : Mat α) (n : Nat)
    (hp : PosDefN n D.elem) : PosDefN n (cov2cor sqrt D).elem := by
  intro x hx
  obtain ⟨i0, hi0, hxi0⟩ := hx
  have hz := hp (fun i => x i * (1 / sqrt (D.elem i i))) ⟨i0, hi0, by
    have hd := (hsq _ (posDefN_diag_pos n D.elem hp i0 hi0)).1
    exact mul_ne_zero hxi0 (one_div_ne_zero (ne_of_gt hd))⟩
  have e : quadN n (cov2cor sqrt D).elem x =
      quadN n D.elem (fun i => x i * (1 / sqrt (D.elem i i))) := by
    unfold quadN
    apply Finset.sum_congr rfl
    intro i _
    apply Finset.sum_congr rfl
    intro j _
    show x i * (D.elem i j * (1 / sqrt (D.elem i i)) * (1 / sqrt (D.elem j j))) * x j =
      x i * (1 / sqrt (D.elem i i)) * D.elem i j * (x j * (1 / sqrt (D.elem j j)))
    ring
  rw [e]
  exact hz

theorem cov2cor_diag (sqrt : α → α) (hsq : IsSqrt sqrt) (D : Mat α) (n : Nat)
    (hp : PosDefN n D.elem) (i : Nat) (hi : i < n) : (cov2cor sqrt D).elem i i = 1 := by
  obtain ⟨hd0, hdd⟩ := hsq _ (posDefN_diag_pos n D.elem hp i hi)
  show D.elem i i * (1 / sqrt (D.elem i i)) * (1 / sqrt (D.elem i i)) = 1
  have hne : sqrt (D.elem i i) ≠ 0 := ne_of_gt hd0
  field_simp
  exact hdd.symm

theorem cov2cor_rescale (sqrt : α → α) (hsq : IsSqrt sqrt) (D : Mat α) (n : Nat)
    (hp : PosDefN n D.elem) (i j : Nat) (hi : i < n) (hj : j < n) :
    sqrt (D.elem i i) * (cov2cor sqrt D).elem i j * sqrt (D.elem j j) = D.elem i j := by
  have hi0 := (hsq _ (posDefN_diag_pos n D.elem hp i hi)).1
  have hj0 := (hsq _ (posDefN_diag_pos n D.elem hp j hj)).1
  show sqrt (D.elem i i) * (D.elem i j * (1 / sqrt (D.elem i i)) * (1 / sqrt (D.elem j j))) *
    sqrt (D.elem j j) = D.elem i j
  have hne1 : sqrt (D.elem i i) ≠ 0 := ne_of_gt hi0
  have hne2 : sqrt (D.elem j j) ≠ 0 := ne_of_gt hj0
  field_simp
  ring

end Cholesky

theorem real_isSqrt : IsSqrt Real.sqrt :=
  fun _ hx => ⟨Real.sqrt_pos.mpr hx, Real.mul_self_sqrt (le_of_lt hx)⟩

theorem ofMatrix_elem {n : Nat} (D : Matrix (Fin n) (Fin n) ℝ) (i j : Fin n) :
    (Mat.ofMatrix D).elem i j = D i j := by
  show (if h : (i : Nat) < n ∧ (j : Nat) < n then D ⟨i, h.1⟩ ⟨j, h.2⟩ else 0) = D i j
  rw [dif_pos ⟨i.isLt, j.isLt⟩]

theorem quadN_ofMatrix {n : Nat} (D : Matrix (Fin n) (Fin n) ℝ) (x : Nat → ℝ) :
    quadN n (Mat.ofMatrix D).elem x =
      Matrix.dotProduct (star (fun k : Fin n => x k)) (D.mulVec (fun k : Fin n => x k)) := by
  unfold quadN Matrix.dotProduct Matrix.mulVec Matrix.dotProduct
  rw [Finset.sum_range]
  apply Finset.sum_congr rfl
  intro i _
  rw [Finset.sum_range, Finset.mul_sum]
  apply Finset.sum_congr rfl
  intro j _
  rw [ofMatrix_elem]
  simp only [Pi.star_apply, star_trivial]
  ring

theorem posDef_symN {n : Nat} (D : Matrix (Fin n) (Fin n) ℝ) (hD : D.PosDef) :
    SymN n (Mat.ofMatrix D).elem := by
  intro i j hi hj
  have h1 := ofMatrix_elem D ⟨i, hi⟩ ⟨j, hj⟩
  have h2 := ofMatrix_elem D ⟨j, hj⟩ ⟨i, hi⟩
  simp only at h1 h2
  rw [h1, h2]
  have h := hD.1.apply ⟨i, hi⟩ ⟨j, hj⟩
  simp only [star_trivial] at h
  exact h.symm

theorem posDef_posDefN {n : Nat} (D : Matrix (Fin n) (Fin n) ℝ) (hD : D.PosDef) :
    PosDefN n (Mat.ofMatrix D).elem := by
  intro x hx
  obtain ⟨i0, hi0, hxi0⟩ := hx
  rw [quadN_ofMatrix]
  apply hD.2
  intro h0
  have := congrFun h0 ⟨i0, hi0⟩
  exact hxi0 this

theorem init_chol {n : Nat} (D : Matrix (Fin n) (Fin n) ℝ) (hD : D.PosDef) :
    ∃ L, chol Real.sqrt (cov2cor Real.sqrt (Mat.ofMatrix D)) = some L ∧
      L.n_rows = n ∧ L.n_cols = n ∧
      (∀ i j, j < i → L.elem i j = 0) ∧ (∀ i, i < n → 0 < L.elem i i) ∧
      (∀ i j, i < n → j < n → ∑ k in Finset.range n, L.elem k i * L.elem k j =
        (cov2cor Real.sqrt (Mat.ofMatrix D)).elem i j) :=
  chol_spec Real.sqrt real_isSqrt (cov2cor Real.sqrt (Mat.ofMatrix D)) rfl
    (cov2cor_symN Real.sqrt (Mat.ofMatrix D) n (posDef_symN D hD))
    (cov2cor_posDefN Real.sqrt real_isSqrt (Mat.ofMatrix D) n (posDef_posDefN D hD))

theorem transpose_mul_self_apply {n : Nat} (L : Mat ℝ) (i j : Fin n) :
    ((L.toMatrix n n).transpose * L.toMatrix n n) i j =
      ∑ k in Finset.range n, L.elem k i * L.elem k j := by
  rw [Matrix.mul_apply, Finset.sum_range]
  rfl

theorem sds_apply {n : Nat} (D : Matrix (Fin n) (Fin n) ℝ) (i : Fin n) :
    Vec.toFun (Vec.sqrt Real.sqrt (Mat.ofMatrix D).diag) n i = Real.sqrt (D i i) := by
  have hi : (i : Nat) < min n n := by rw [Nat.min_self]; exact i.isLt
  show List.getD (List.map Real.sqrt (List.map (fun k => (Mat.ofMatrix D).elem k k)
    (List.range (min n n)))) i 0 = Real.sqrt (D i i)
  rw [List.getD_eq_getElem?_getD, List.getElem?_map, List.getElem?_map,
    List.getElem?_range hi]
  show Real.sqrt ((Mat.ofMatrix D).elem i i) = Real.sqrt (D i i)
  rw [ofMatrix_elem]

/-- C5, amended: for every symmetric positive-definite initial covariance `D`
the factor `L = chol(cov2cor(D))` exists, is `n × n` and upper-triangular,
every column of `L` has unit Euclidean norm (the diagonal of `Lᵗ L` equals 1
elementwise), and the diagonal of `L` itself is positive and at most 1. -/
theorem chol_cov2cor_upper_unit_columns {n : Nat} (D : Matrix (Fin n) (Fin n) ℝ)
    (hD : D.PosDef) :
    ∃ L, chol Real.sqrt (cov2cor Real.sqrt (Mat.ofMatrix D)) = some L ∧
      L.n_rows = n ∧ L.n_cols = n ∧
      (∀ i j : Fin n, j < i → L.toMatrix n n i j = 0) ∧
      (∀ j : Fin n, ((L.toMatrix n n).transpose * L.toMatrix n n) j j = 1) ∧
      (∀ j : Fin n, 0 < L.toMatrix n n j j ∧ L.toMatrix n n j j ≤ 1) := by
  obtain ⟨L, hL, hr, hc, hlow, hdiag, hprod⟩ := init_chol D hD
  have hcol : ∀ j : Fin n, ((L.toMatrix n n).transpose * L.toMatrix n n) j j = 1 := by
    intro j
    rw [transpose_mul_self_apply, hprod j j j.isLt j.isLt]
    exact cov2cor_diag Real.sqrt real_isSqrt (Mat.ofMatrix D) n (posDef_posDefN D hD) j j.isLt
  refine ⟨L, hL, hr, hc, fun i j hji => hlow i j hji, hcol, ?_⟩
  intro j
  refine ⟨hdiag j j.isLt, ?_⟩
  have h1 := hcol j
  rw [transpose_mul_self_apply] at h1
  have hle : L.elem j j * L.elem j j ≤ ∑ k in Finset.range n, L.elem k j * L.elem k j :=
    Finset.single_le_sum (f := fun k => L.elem k j * L.elem k j)
      (fun k _ => mul_self_nonneg (L.elem k j)) (Finset.mem_range.mpr j.isLt)
  rw [h1] at hle
  have hpos : 0 < L.elem j j := hdiag j j.isLt
  show L.elem j j ≤ 1
  nlinarith

theorem posDef_example : (!![1, 3 / 5; 3 / 5, 1] : Matrix (Fin 2) (Fin 2) ℝ).PosDef := by
  refine ⟨?_, ?_⟩
  · ext i j
    rw [Matrix.conjTranspose_apply, star_trivial]
    fin_cases i <;> fin_cases j <;> rfl
  · intro x hx
    have hne : x 0 ≠ 0 ∨ x 1 ≠ 0 := by
      by_contra h
      push_neg at h
      apply hx
      funext i
      fin_cases i
      · exact h.1
      · exact h.2
    have e : Matrix.dotProduct (star x)
        ((!![1, 3 / 5; 3 / 5, 1] : Matrix (Fin 2) (Fin 2) ℝ).mulVec x) =
        (x 0 + 3 / 5 * x 1) ^ 2 + 16 / 25 * x 1 ^ 2 := by
      simp [Matrix.dotProduct, Matrix.mulVec, Fin.sum_univ_two]
      ring
    rw [e]
    rcases hne with h | h
    · by_cases h1 : x 1 = 0
      · rw [h1]
        have : 0 < x 0 ^ 2 := by positivity
        nlinarith
      · have : 0 < x 1 ^ 2 := by positivity
        nlinarith [sq_nonneg (x 0 + 3 / 5 * x 1)]
    · have : 0 < x 1 ^ 2 := by positivity
      nlinarith [sq_nonneg (x 0 + 3 / 5 * x 1)]

/-- Witness of C5, amended, on the covariance `[[1, 3/5], [3/5, 1]]`. -/
theorem chol_cov2cor_upper_unit_columns_witness :
    (!![1, 3 / 5; 3 / 5, 1] : Matrix (Fin 2) (Fin 2) ℝ).PosDef ∧
    ∃ L, chol Real.sqrt (cov2cor Real.sqrt
        (Mat.ofMatrix (!![1, 3 / 5; 3 / 5, 1] : Matrix (Fin 2) (Fin 2) ℝ))) = some L ∧
      L.n_rows = 2 ∧ L.n_cols = 2 ∧
      (∀ i j : Fin 2, j < i → L.toMatrix 2 2 i j = 0) ∧
      (∀ j : Fin 2, ((L.toMatrix 2 2).transpose * L.toMatrix 2 2) j j = 1) ∧
      (∀ j : Fin 2, 0 < L.toMatrix 2 2 j j ∧ L.toMatrix 2 2 j j ≤ 1) :=
  ⟨posDef_example, chol_cov2cor_upper_unit_columns _ posDef_example⟩

theorem sqrt_16 : Real.sqrt 16 = 4 := by
  rw [show (16 : ℝ) = 4 ^ 2 by norm_num]
  exact Real.sqrt_sq (by norm_num)

theorem sqrt_25 : Real.sqrt 25 = 5 := by
  rw [show (25 : ℝ) = 5 ^ 2 by norm_num]
  exact Real.sqrt_sq (by norm_num)

theorem chol_example_value :
    (chol Real.sqrt (cov2cor Real.sqrt
        (Mat.ofMatrix (!![1, 3 / 5; 3 / 5, 1] : Matrix (Fin 2) (Fin 2) ℝ)))).map
      (fun L => (L.elem 0 0, L.elem 0 1, L.elem 1 0, L.elem 1 1)) =
      some (1, 3 / 5, 0, 4 / 5) := by
  simp [chol, cholU, cov2cor, Mat.ofMatrix]
  norm_num [sqrt_16, sqrt_25]

/-- C5, counterexample: the covariance `D = [[1, 3/5], [3/5, 1]]` is symmetric
positive-definite and `chol(cov2cor(D))` is `[[1, 3/5], [0, 4/5]]`: its second
diagonal entry is `4/5`, not 1. -/
theorem chol_diagonal_not_one :
    (!![1, 3 / 5; 3 / 5, 1] : Matrix (Fin 2) (Fin 2) ℝ).PosDef ∧
    ∃ L, chol Real.sqrt (cov2cor Real.sqrt
        (Mat.ofMatrix (!![1, 3 / 5; 3 / 5, 1] : Matrix (Fin 2) (Fin 2) ℝ))) = some L ∧
      L.elem 0 0 = 1 ∧ L.elem 0 1 = 3 / 5 ∧ L.elem 1 0 = 0 ∧ L.elem 1 1 = 4 / 5 ∧
      L.elem 1 1 ≠ 1 := by
  refine ⟨posDef_example, ?_⟩
  obtain ⟨L, hL, hv⟩ := Option.map_eq_some'.mp chol_example_value
  simp only [Prod.mk.injEq] at hv
  obtain ⟨h00, h01, h10, h11⟩ := hv
  refine ⟨L, hL, h00, h01, h10, h11, ?_⟩
  rw [h11]
  norm_num

/-- C6 (decomposition round trip at initialisation): for every symmetric
positive-definite `D`, with `sds = sqrt(diag(D))`, `R = cov2cor(D)` and
`L = chol(R)`: the factor exists, `Lᵗ L = R`, `Lᵗ L` has unit diagonal, and
`diag(sds) · Lᵗ · L · diag(sds) = D`, hence is positive-definite (and
Hermitian, i.e. symmetric). -/
theorem init_decomposition_round_trip {n : Nat} (D : Matrix (Fin n) (Fin n) ℝ)
    (hD : D.PosDef) :
    ∃ L, chol Real.sqrt (cov2cor Real.sqrt (Mat.ofMatrix D)) = some L ∧
      L.n_rows = n ∧ L.n_cols = n ∧
      (L.toMatrix n n).transpose * L.toMatrix n n =
        (cov2cor Real.sqrt (Mat.ofMatrix D)).toMatrix n n ∧
      (∀ i : Fin n, ((L.toMatrix n n).transpose * L.toMatrix n n) i i = 1) ∧
      Matrix.diagonal (Vec.toFun (Vec.sqrt Real.sqrt (Mat.ofMatrix D).diag) n) *
          (L.toMatrix n n).transpose * L.toMatrix n n *
          Matrix.diagonal (Vec.toFun (Vec.sqrt Real.sqrt (Mat.ofMatrix D).diag) n) = D ∧
      (Matrix.diagonal (Vec.toFun (Vec.sqrt Real.sqrt (Mat.ofMatrix D).diag) n) *
          (L.toMatrix n n).transpose * L.toMatrix n n *
          Matrix.diagonal (Vec.toFun (Vec.sqrt Real.sqrt (Mat.ofMatrix D).diag) n)).PosDef ∧
      (Matrix.diagonal (Vec.toFun (Vec.sqrt Real.sqrt (Mat.ofMatrix D).diag) n) *
          (L.toMatrix n n).transpose * L.toMatrix n n *
          Matrix.diagonal (Vec.toFun (Vec.sqrt Real.sqrt (Mat.ofMatrix D).diag) n)).IsSymm := by
  obtain ⟨L, hL, hr, hc, _, _, hprod⟩ := init_chol D hD
  have hN := posDef_posDefN D hD
  have hLL : (L.toMatrix n n).transpose * L.toMatrix n n =
      (cov2cor Real.sqrt (Mat.ofMatrix D)).toMatrix n n := by
    ext i j
    rw [transpose_mul_self_apply, hprod i j i.isLt j.isLt]
    rfl
  have hdiag : ∀ i : Fin n, ((L.toMatrix n n).transpose * L.toMatrix n n) i i = 1 := by
    intro i
    rw [hLL]
    exact cov2cor_diag Real.sqrt real_isSqrt (Mat.ofMatrix D) n hN i i.isLt
  have hround : Matrix.diagonal (Vec.toFun (Vec.sqrt Real.sqrt (Mat.ofMatrix D).diag) n) *
      (L.toMatrix n n).transpose * L.toMatrix n n *
      Matrix.diagonal (Vec.toFun (Vec.sqrt Real.sqrt (Mat.ofMatrix D).diag) n) = D := by
    rw [Matrix.mul_assoc (Matrix.diagonal _) (L.toMatrix n n).transpose (L.toMatrix n n), hLL]
    ext i j
    rw [Matrix.mul_diagonal, Matrix.diagonal_mul, sds_apply, sds_apply]
    have h := cov2cor_rescale Real.sqrt real_isSqrt (Mat.ofMatrix D) n hN i j i.isLt j.isLt
    rw [ofMatrix_elem, ofMatrix_elem, ofMatrix_elem] at h
    exact h
  refine ⟨L, hL, hr, hc, hLL, hdiag, hround, ?_, ?_⟩
  · rw [hround]
    exact hD
  · rw [hround]
    have hH := hD.1
    unfold Matrix.IsSymm
    ext i j
    have h := hH.apply j i
    simp only [star_trivial] at h
    rw [Matrix.transpose_apply]
    exact h.symm

/-- Witness of C6 on the covariance `[[1, 3/5], [3/5, 1]]`. -/
theorem init_decomposition_round_trip_witness :
    (!![1, 3 / 5; 3 / 5, 1] : Matrix (Fin 2) (Fin 2) ℝ).PosDef ∧
    ∃ L, chol Real.sqrt (cov2cor Real.sqrt
        (Mat.ofMatrix (!![1, 3 / 5; 3 / 5, 1] : Matrix (Fin 2) (Fin 2) ℝ))) = some L ∧
      (∀ i : Fin 2, ((L.toMatrix 2 2).transpose * L.toMatrix 2 2) i i = 1) ∧
      Matrix.diagonal (Vec.toFun (Vec.sqrt Real.sqrt
            (Mat.ofMatrix (!![1, 3 / 5; 3 / 5, 1] : Matrix (Fin 2) (Fin 2) ℝ)).diag) 2) *
          (L.toMatrix 2 2).transpose * L.toMatrix 2 2 *
          Matrix.diagonal (Vec.toFun (Vec.sqrt Real.sqrt
            (Mat.ofMatrix (!![1, 3 / 5; 3 / 5, 1] : Matrix (Fin 2) (Fin 2) ℝ)).diag) 2) =
        !![1, 3 / 5; 3 / 5, 1] := by
  obtain ⟨L, hL, _, _, _, hdiag, hround, _, _⟩ :=
    init_decomposition_round_trip (!![1, 3 / 5; 3 / 5, 1] : Matrix (Fin 2) (Fin 2) ℝ)
      posDef_example
  exact ⟨posDef_example, L, hL, hdiag, hround⟩

end JMbayes2
